import Mathlib

/-!
Verification of the expert/works linkage and anonymization pipeline of the
knowledgegraph-chatbot repository (src/tools/export.py and
src/utilities/anonymize.py), as a shallow embedding in Lean.

JSON values are modelled by `JValue`; Python dicts holding JSON data are
modelled as ordered association lists (`Record`), matching Python dict
semantics for the unique-key dictionaries produced by `json.load`:
lookup, in-place update preserving position, deletion, and membership.
Python `==` on JSON data is modelled by `pyEq` (which identifies `True`/`1`
and `False`/`0` the way Python does), truthiness by `pyTruthy`, and
fallible operations (KeyError / AttributeError / TypeError) by `Except`.
-/

/-- JSON values as produced by `json.load` / consumed by `json.dump` in the
pipeline.  Numbers are modelled as integers (the identifiers this pipeline
manipulates are strings and ints). -/
inductive JValue where
  | null
  | bool (b : Bool)
  | num (n : Int)
  | str (s : String)
  | arr (xs : List JValue)
  | obj (fields : List (String × JValue))

/- Structural Boolean equality on `JValue` (mutually with lists of values
and field lists, since `JValue` is a nested inductive). -/
mutual
def jeq : JValue → JValue → Bool
  | .null, .null => true
  | .bool a, .bool b => a == b
  | .num a, .num b => a == b
  | .str a, .str b => a == b
  | .arr xs, .arr ys => jeqList xs ys
  | .obj fs, .obj gs => jeqFields fs gs
  | _, _ => false
def jeqList : List JValue → List JValue → Bool
  | [], [] => true
  | x :: xs, y :: ys => jeq x y && jeqList xs ys
  | _, _ => false
def jeqFields : List (String × JValue) → List (String × JValue) → Bool
  | [], [] => true
  | (k, v) :: fs, (l, w) :: gs => k == l && jeq v w && jeqFields fs gs
  | _, _ => false
end

/- Normal form used to model Python `==` on JSON data: Python treats
`True == 1` and `False == 0` as equal (also nested inside lists/dicts),
so booleans are normalised to the corresponding integer. -/
mutual
def pyNorm : JValue → JValue
  | .null => .null
  | .bool b => .num (if b then 1 else 0)
  | .num n => .num n
  | .str s => .str s
  | .arr xs => .arr (pyNormList xs)
  | .obj fs => .obj (pyNormFields fs)
def pyNormList : List JValue → List JValue
  | [] => []
  | x :: xs => pyNorm x :: pyNormList xs
def pyNormFields : List (String × JValue) → List (String × JValue)
  | [] => []
  | (k, v) :: fs => (k, pyNorm v) :: pyNormFields fs
end

/-- Python `==` on JSON data. -/
def pyEq (a b : JValue) : Bool := jeq (pyNorm a) (pyNorm b)

/-- Python truthiness of a JSON value: `None`, `False`, `0`, `""`, `[]`
and the empty dict are falsy, everything else is truthy. -/
def pyTruthy : JValue → Bool
  | .null => false
  | .bool b => b
  | .num n => n != 0
  | .str s => s != ""
  | .arr xs => !xs.isEmpty
  | .obj fs => !fs.isEmpty

/-- Python hashability of a JSON value: lists and dicts are unhashable
(using one as a dict key raises TypeError). -/
def hashable : JValue → Bool
  | .arr _ => false
  | .obj _ => false
  | _ => true

/-- A Python dict holding JSON data, as an ordered association list.
The dictionaries this pipeline reads from JSON files have unique keys. -/
abbrev Record := List (String × JValue)

/-- Python `d.get(k)` / `d[k]` lookup: the value at the first occurrence
of the key. -/
def recGet (r : Record) (k : String) : Option JValue :=
  match r with
  | [] => none
  | (k', v) :: rest => if k' = k then some v else recGet rest k

/-- Python `k in d`. -/
def recHas (r : Record) (k : String) : Bool := (recGet r k).isSome

/-- Python `d[k] = v`: update in place (position preserved) when the key is
present, append at the end otherwise — exactly Python dict assignment. -/
def recSet (r : Record) (k : String) (v : JValue) : Record :=
  match r with
  | [] => [(k, v)]
  | (k', v') :: rest => if k' = k then (k', v) :: rest else (k', v') :: recSet rest k v

/-- Python `del d[k]` (on the unique-key dicts of this pipeline). -/
def recDel (r : Record) (k : String) : Record :=
  match r with
  | [] => []
  | (k', v') :: rest => if k' = k then recDel rest k else (k', v') :: recDel rest k

/-- Errors raised by the modelled Python code. -/
inductive PyErr where
  | keyError
  | attributeError
  | typeError

/-- The `Id` value of an expert record (`None` when absent, as
`expert.get("Id")` yields). -/
def idOf (e : Record) : JValue := (recGet e "Id").getD .null

/-- The `ExpertId` value of a works/outputs record (`None` when absent, as
`work.get("ExpertId")` yields). -/
def ridOf (r : Record) : JValue := (recGet r "ExpertId").getD .null

/- ----------------------------------------------------------------------
Linkage builder: DataProcessor.combine_experts_with_works
(src/tools/export.py lines 180-197).
---------------------------------------------------------------------- -/

/-- The `works_by_expert` dict of `combine_experts_with_works`, keyed by
`ExpertId` values (JSON values compared with Python `==`). -/
abbrev WDict := List (JValue × List Record)

/-- Dict lookup with default `[]`: `works_by_expert.get(expert_id, [])`. -/
def dictFindD (m : WDict) (k : JValue) : List Record :=
  match m with
  | [] => []
  | (k', ws) :: rest => if pyEq k' k then ws else dictFindD rest k

/-- The effect of `works_by_expert.setdefault(expert_id, []).append(work)`:
append to the list at the first matching key, or add a new key at the end. -/
def dictAppendAt (m : WDict) (k : JValue) (w : Record) : WDict :=
  match m with
  | [] => [(k, [w])]
  | (k', ws) :: rest =>
      if pyEq k' k then (k', ws ++ [w]) :: rest else (k', ws) :: dictAppendAt rest k w

/-- The first loop of `combine_experts_with_works`:
`for work in works: expert_id = work.get("ExpertId"); if expert_id:
works_by_expert.setdefault(expert_id, []).append(work)`.
A missing key yields `None` (falsy, skipped); a falsy id is skipped by the
`if expert_id:` guard; a truthy but unhashable id raises TypeError. -/
def buildWorksByExpert : List Record → WDict → Except PyErr WDict
  | [], m => .ok m
  | w :: rest, m =>
      if pyTruthy (ridOf w) then
        if hashable (ridOf w) then buildWorksByExpert rest (dictAppendAt m (ridOf w) w)
        else .error .typeError
      else buildWorksByExpert rest m

/-- `DataProcessor.combine_experts_with_works` on already-loaded JSON data:
build `works_by_expert`, then set `expert["works"] =
works_by_expert.get(expert.get("Id"), [])` for each expert.  Looking up an
unhashable `Id` raises TypeError. -/
def combine_experts_with_works (experts works : List Record) : Except PyErr (List Record) := do
  let wbe ← buildWorksByExpert works []
  experts.mapM (fun e =>
    if hashable (idOf e) then
      pure (recSet e "works" (.arr ((dictFindD wbe (idOf e)).map JValue.obj)))
    else .error .typeError)

/- ----------------------------------------------------------------------
API client: DWSAPIClient._make_request, get_outputs_and_works,
get_expert_profile (src/tools/export.py lines 63-113).
The HTTP exchange itself is external; one request/response is abstracted
as an `HttpOutcome`.
---------------------------------------------------------------------- -/

/-- Outcome of one HTTP GET: a parsed JSON body, a transport-level failure
(`requests.exceptions.RequestException`, including non-2xx status via
`raise_for_status`), or a body that is not valid JSON
(`json.JSONDecodeError` from `response.json()`). -/
inductive HttpOutcome where
  | ok (body : JValue)
  | transportError
  | invalidJson

/-- Errors propagating out of the API client. -/
inductive ApiError where
  | network
  | decode
  | typeError

/-- `DWSAPIClient._make_request`: both `except` arms log and re-raise, so a
transport failure or a malformed JSON body is an error for the caller. -/
def make_request : HttpOutcome → Except ApiError JValue
  | .ok body => .ok body
  | .transportError => .error .network
  | .invalidJson => .error .decode

/-- `response_data.get("RecordList", [])` where `response_data` may be any
JSON value: on a non-dict body, `.get` raises AttributeError. -/
def getRecordListField : JValue → Except ApiError JValue
  | .obj fs => .ok ((recGet fs "RecordList").getD (.arr []))
  | _ => .error .typeError

/-- Use of a `RecordList` value as a list (`len(...)`, list concatenation)
in `get_outputs_and_works`; a non-list value raises. -/
def asList : JValue → Except ApiError (List JValue)
  | .arr xs => .ok xs
  | _ => .error .typeError

/-- `DWSAPIClient.get_outputs_and_works`: two `_make_request` calls with no
exception handling — any failure propagates — returning
`works_records + outputs_records`. -/
def get_outputs_and_works (outResp worksResp : HttpOutcome) : Except ApiError (List JValue) := do
  let outputs_data ← make_request outResp
  let works_data ← make_request worksResp
  let outputs_records ← asList (← getRecordListField outputs_data)
  let works_records ← asList (← getRecordListField works_data)
  return works_records ++ outputs_records

/-- Python `records[0]` as it behaves inside the `try` of
`get_expert_profile`, on a truthy `records` value: first element of a list,
first character of a string; anything else raises (and the surrounding
`except Exception` turns it into `None`). -/
def pyIndexZero : JValue → Option JValue
  | .arr (x :: _) => some x
  | .str s => s.data.head?.map (fun c => .str (String.mk [c]))
  | _ => none

/-- `DWSAPIClient.get_expert_profile`: the whole body is wrapped in
`try ... except Exception: return None`, so every failure — including a
transport failure or malformed JSON from `_make_request` — yields `None`;
an empty (or missing) `RecordList` also yields `None`; otherwise the first
record is returned. -/
def get_expert_profile (resp : HttpOutcome) : Option JValue :=
  match make_request resp with
  | .error _ => none
  | .ok body =>
      match body with
      | .obj fs =>
          let records := (recGet fs "RecordList").getD (.arr [])
          if pyTruthy records then pyIndexZero records else none
      | _ => none

/- ----------------------------------------------------------------------
DataProcessor.save_initial_data (src/tools/export.py lines 168-178):
splits outputs vs. works by `'Output' in str(type(item)).title()`.
---------------------------------------------------------------------- -/

/-- Test whether `needle` begins `hay` (character lists). -/
def leadsWith : List Char → List Char → Bool
  | [], _ => true
  | x :: xs, y :: ys => x == y && leadsWith xs ys
  | _ :: _, [] => false

/-- Python substring containment `needle in hay` (character lists). -/
def hasSub (needle : List Char) : List Char → Bool
  | [] => leadsWith needle []
  | c :: rest => leadsWith needle (c :: rest) || hasSub needle rest

/-- Python substring containment on strings. -/
def strHasSub (needle hay : String) : Bool := hasSub needle.data hay.data

/-- Python `str.title()`: the first letter of each run of letters is
uppercased, the following letters are lowercased. -/
def pyTitleChars : Bool → List Char → List Char
  | _, [] => []
  | prevAlpha, c :: cs =>
      if c.isAlpha then
        (if prevAlpha then c.toLower else c.toUpper) :: pyTitleChars true cs
      else c :: pyTitleChars false cs

/-- Python `str.title()` on strings. -/
def pyTitle (s : String) : String := String.mk (pyTitleChars false s.data)

/-- An ASCII apostrophe, kept out of string literals. -/
def apos : String := String.mk [Char.ofNat 39]

/-- Python `type(x).__name__` for JSON-decoded values. -/
def pyTypeName : JValue → String
  | .null => "NoneType"
  | .bool _ => "bool"
  | .num _ => "int"
  | .str _ => "str"
  | .arr _ => "list"
  | .obj _ => "dict"

/-- Python `str(type(item))` for JSON-decoded values, e.g. the string
`<class` `'dict'` `>` for a dict. -/
def pyTypeStr (v : JValue) : String := "<class " ++ apos ++ pyTypeName v ++ apos ++ ">"

/-- The filter `'Output' in str(type(item)).title()` used by
`save_initial_data` to select outputs. -/
def isOutputByTypeName (item : JValue) : Bool :=
  strHasSub "Output" (pyTitle (pyTypeStr item))

/-- The filter `'Work' in str(type(item)).title()` used by
`save_initial_data` to select works. -/
def isWorkByTypeName (item : JValue) : Bool :=
  strHasSub "Work" (pyTitle (pyTypeStr item))

/-- Contents of the four files written by `DataProcessor.save_initial_data`. -/
structure InitialFiles where
  outputs : List JValue
  works : List JValue
  original_data : List JValue
  experts : List Record

/-- `DataProcessor.save_initial_data`: split `outputs_and_works` with the
type-name string test, then save `outputs.json`, `works.json`,
`original_data.json` and `experts.json`. -/
def save_initial_data (outputs_and_works : List JValue) (experts : List Record) : InitialFiles :=
  { outputs := outputs_and_works.filter isOutputByTypeName
  , works := outputs_and_works.filter isWorkByTypeName
  , original_data := outputs_and_works
  , experts := experts }

/- ----------------------------------------------------------------------
Anonymizer: src/utilities/anonymize.py.
The faker-generated synthetic identity for the i-th expert processed is
abstracted as an input stream `fakes : Nat → FakeIdentity`; the values
derived from it in `anonymize_data` (full name, email) are computed
exactly as in the source.
---------------------------------------------------------------------- -/

/-- The fixed `remove_list` of anonymize.py. -/
def remove_list : List String :=
  ["EncodedTitle", "ClickURL", "externalJobs", "Photo", "Content",
   "internalProjects", "Recomendations", "ActivityLinks", "Username"]

/-- The fixed `name_list` of anonymize.py. -/
def name_list : List String := ["Title", "FirstName", "LastName"]

/-- The fixed `works_list` of anonymize.py. -/
def works_list : List String := ["Owner"]

/-- The fixed `contact_list` of anonymize.py. -/
def contact_list : List String := ["Email", "Phone", "Mobile"]

/-- The fixed `id_list` of anonymize.py. -/
def id_list : List String := ["Id"]

/-- The fixed `works_id_list` of anonymize.py. -/
def works_id_list : List String := ["ExpertId"]

/-- `remove_data`: delete every `remove_list` attribute present in the
record. -/
def remove_data (processed_record : Record) : Record :=
  remove_list.foldl recDel processed_record

/-- One synthetic identity drawn from faker for one expert:
`fake.unique.random_int(min=111111, max=999999)`, `fake.first_name()`,
`fake.last_name()`, and two `fake.phone_number()` calls. -/
structure FakeIdentity where
  fid : Int
  firstName : String
  lastName : String
  phone : String
  mobile : String

/-- The derived full name built in `anonymize_data`. -/
def fakeFull (F : FakeIdentity) : String := F.firstName ++ " " ++ F.lastName

/-- Python `str.lower()` on the ASCII names faker generates. -/
def strLower (s : String) : String := String.mk (s.data.map Char.toLower)

/-- The derived email built in `anonymize_data`:
lowercased first and last name joined by a dot, at the fixed domain. -/
def fakeEmail (F : FakeIdentity) : String :=
  strLower F.firstName ++ "." ++ strLower F.lastName ++ "@roche.com"

/-- The expression `value.replace(value, t)` used throughout anonymize.py:
for a string `s`, `s.replace(s, t)` is always `t` (a string occurs in
itself exactly once, as the whole string; and `"".replace("", t)` is `t`),
and on a non-string value the attribute access `.replace` raises
AttributeError. -/
def replaceSelf (v : JValue) (t : String) : Except PyErr JValue :=
  match v with
  | .str _ => .ok (.str t)
  | _ => .error .attributeError

/-- One iteration of the `anonymize_name` loop, for attribute `a`:
if the attribute is present, branch on the substring tests
`"FirstName" in attribute` / `"LastName" in attribute` and replace the
value accordingly. -/
def anonNameStep (r : Record) (a first last full : String) : Except PyErr Record :=
  match recGet r a with
  | none => .ok r
  | some v =>
      let t := if strHasSub "FirstName" a then first
               else if strHasSub "LastName" a then last
               else full
      (replaceSelf v t).map (fun v' => recSet r a v')

/-- `anonymize_name(processed_record, list, name, last_name, full_name)`. -/
def anonymize_name (r : Record) (l : List String) (first last full : String) :
    Except PyErr Record :=
  match l with
  | [] => .ok r
  | a :: rest => do
      let r' ← anonNameStep r a first last full
      anonymize_name r' rest first last full

/-- One iteration of the `anonymize_contacts` loop, for attribute `a`:
substring tests `"Email" in attribute`, `"Phone" in attribute`,
`"Mobile" in attribute` select the replacement; no branch means no change. -/
def anonContactStep (r : Record) (a email phone mobile : String) : Except PyErr Record :=
  match recGet r a with
  | none => .ok r
  | some v =>
      if strHasSub "Email" a then (replaceSelf v email).map (fun v' => recSet r a v')
      else if strHasSub "Phone" a then (replaceSelf v phone).map (fun v' => recSet r a v')
      else if strHasSub "Mobile" a then (replaceSelf v mobile).map (fun v' => recSet r a v')
      else .ok r

/-- `anonymize_contacts(processed_record, email, phone, mobile)`; the list
iterated over (always `contact_list` in the source) is explicit here so the
loop can be unfolded. -/
def anonymize_contacts (r : Record) (l : List String) (email phone mobile : String) :
    Except PyErr Record :=
  match l with
  | [] => .ok r
  | a :: rest => do
      let r' ← anonContactStep r a email phone mobile
      anonymize_contacts r' rest email phone mobile

/-- One iteration of the `anonymize_id` loop: if the attribute is present,
`if "Id" in attribute` (which also holds for `"ExpertId"`) or
`elif "ExpertId" in attribute` assigns the synthetic integer id. -/
def anonIdStep (r : Record) (a : String) (fid : Int) : Record :=
  match recGet r a with
  | none => r
  | some _ =>
      if strHasSub "Id" a then recSet r a (.num fid)
      else if strHasSub "ExpertId" a then recSet r a (.num fid)
      else r

/-- `anonymize_id(processed_record, list, fake_id)`. -/
def anonymize_id (r : Record) (l : List String) (fid : Int) : Record :=
  match l with
  | [] => r
  | a :: rest => anonymize_id (anonIdStep r a fid) rest fid

/-- Python `record[k]`: KeyError when the key is missing. -/
def pyIndex (r : Record) (k : String) : Except PyErr JValue :=
  match recGet r k with
  | some v => .ok v
  | none => .error .keyError

/-- The body of `if original_expert_id == record["ExpertId"]:` in
`anonymize_data`, applied to one matching works/outputs record:
`remove_data`, `anonymize_name(record, works_list, ...)`,
`anonymize_contacts`, `anonymize_id(record, works_id_list, fake_id)`. -/
def processMatchedRecord (F : FakeIdentity) (r : Record) : Except PyErr Record := do
  let r1 := remove_data r
  let r2 ← anonymize_name r1 works_list F.firstName F.lastName (fakeFull F)
  let r3 ← anonymize_contacts r2 contact_list (fakeEmail F) F.phone F.mobile
  return anonymize_id r3 works_id_list F.fid

/-- The inner `for record in data:` loop of `anonymize_data` for one
expert: every record is subscripted with `record["ExpertId"]` (KeyError
when absent) and compared with `==` against the expert's original id. -/
def anonWorksPass (origId : JValue) (F : FakeIdentity) : List Record → Except PyErr (List Record)
  | [] => .ok []
  | r :: rest => do
      let rid ← pyIndex r "ExpertId"
      let r' ← if pyEq origId rid then processMatchedRecord F r else pure r
      let rest' ← anonWorksPass origId F rest
      return r' :: rest'

/-- One iteration of the outer `for expert_record in expert_data:` loop:
capture `original_expert_id = expert_record["Id"]` (KeyError when absent),
`remove_data(expert_record)`, rewrite every matching data record, then
anonymize the expert record itself (`name_list`, contacts, `id_list`). -/
def processExpert (F : FakeIdentity) (e : Record) (data : List Record) :
    Except PyErr (Record × List Record) := do
  let origId ← pyIndex e "Id"
  let e1 := remove_data e
  let data' ← anonWorksPass origId F data
  let e2 ← anonymize_name e1 name_list F.firstName F.lastName (fakeFull F)
  let e3 ← anonymize_contacts e2 contact_list (fakeEmail F) F.phone F.mobile
  return (anonymize_id e3 id_list F.fid, data')

/-- The outer loop of `anonymize_data`, threading the (mutated-in-place)
`data` list through the experts; `i` indexes the fake identities drawn so
far. -/
def anonymizeLoop (fakes : Nat → FakeIdentity) (i : Nat) :
    List Record → List Record → Except PyErr (List Record × List Record)
  | [], data => .ok ([], data)
  | e :: es, data => do
      let (e', data') ← processExpert (fakes i) e data
      let (es', data'') ← anonymizeLoop fakes (i + 1) es data'
      return (e' :: es', data'')

/-- `anonymize_data` on loaded JSON data: `expert_data` is experts.json,
`data` is original_data.json; returns the contents written to
experts_cleaned.json and works_cleaned.json (in that order). -/
def anonymize_data (expert_data data : List Record) (fakes : Nat → FakeIdentity) :
    Except PyErr (List Record × List Record) :=
  anonymizeLoop fakes 0 expert_data data

/- ----------------------------------------------------------------------
Pure characterizations of the anonymizer, proved equal to the model above
under explicit well-formedness hypotheses.
---------------------------------------------------------------------- -/

/-- Overwrite a field only when it is present (all anonymize.py rewrites
are guarded by `if attribute in processed_record`). -/
def setIfPresent (r : Record) (k : String) (v : JValue) : Record :=
  match recGet r k with
  | some _ => recSet r k v
  | none => r

/-- The net effect of one matched works/outputs record rewrite: strip the
`remove_list` fields, then overwrite `Owner` with the synthetic full name,
the contact fields with the synthetic contacts, and `ExpertId` with the
synthetic id — each only where present. -/
def cleanWork (F : FakeIdentity) (r : Record) : Record :=
  setIfPresent (setIfPresent (setIfPresent (setIfPresent (setIfPresent
    (remove_data r) "Owner" (.str (fakeFull F))) "Email" (.str (fakeEmail F)))
    "Phone" (.str F.phone)) "Mobile" (.str F.mobile)) "ExpertId" (.num F.fid)

/-- The net effect of one expert record rewrite: strip the `remove_list`
fields, overwrite `Title` with the full name, `FirstName` / `LastName`
with the synthetic names, the contact fields, and `Id` with the synthetic
id — each only where present. -/
def cleanExpert (F : FakeIdentity) (e : Record) : Record :=
  setIfPresent (setIfPresent (setIfPresent (setIfPresent (setIfPresent (setIfPresent
    (setIfPresent (remove_data e) "Title" (.str (fakeFull F)))
    "FirstName" (.str F.firstName)) "LastName" (.str F.lastName))
    "Email" (.str (fakeEmail F))) "Phone" (.str F.phone)) "Mobile" (.str F.mobile))
    "Id" (.num F.fid)

/-- The effect of one expert's inner-loop pass on one data record:
rewrite it when its current `ExpertId` equals the expert's original id. -/
def stepWork (F : FakeIdentity) (origId : JValue) (r : Record) : Record :=
  if pyEq origId (ridOf r) then cleanWork F r else r

/-- Sequential effect of the whole outer loop on one data record: each
expert in turn compares its original id against the record's current
`ExpertId` (which an earlier match may already have rewritten). -/
def applyExperts (fakes : Nat → FakeIdentity) (i : Nat) (experts : List Record) (r : Record) :
    Record :=
  match experts with
  | [] => r
  | e :: es => applyExperts fakes (i + 1) es (stepWork (fakes i) (idOf e) r)

/-- The expert records written to experts_cleaned.json, positionally. -/
def cleanExperts (fakes : Nat → FakeIdentity) (i : Nat) : List Record → List Record
  | [] => []
  | e :: es => cleanExpert (fakes i) e :: cleanExperts fakes (i + 1) es

/-- Index of the first expert whose original `Id` equals (Python `==`)
the given `ExpertId` value. -/
def firstMatch (experts : List Record) (rid : JValue) : Option Nat :=
  match experts with
  | [] => none
  | e :: es => if pyEq (idOf e) rid then some 0 else (firstMatch es rid).map (· + 1)

/-- A field that, when present, holds a string (so that `.replace` does not
raise AttributeError). -/
def strOpt : Option JValue → Bool
  | some (.str _) => true
  | some _ => false
  | none => true

/-- A works/outputs record whose `Owner` and contact fields are strings
wherever present. -/
def goodWork (r : Record) : Bool :=
  strOpt (recGet r "Owner") && strOpt (recGet r "Email")
    && strOpt (recGet r "Phone") && strOpt (recGet r "Mobile")

/-- An expert record whose name and contact fields are strings wherever
present. -/
def goodExpert (e : Record) : Bool :=
  strOpt (recGet e "Title") && strOpt (recGet e "FirstName")
    && strOpt (recGet e "LastName") && strOpt (recGet e "Email")
    && strOpt (recGet e "Phone") && strOpt (recGet e "Mobile")

/- ----------------------------------------------------------------------
The synthetic-id generator: `fake.unique.random_int(min=111111, max=999999)`.
The faker library (an external collaborator) implements `unique` as a
proxy that re-draws from the underlying generator until a value not yet
returned during this run appears, raising UniquenessException after a
bounded number of retries; the raw generator is abstracted as a stream.
---------------------------------------------------------------------- -/

/-- One `fake.unique.random_int` call: retry from the raw stream at
position `pos` until the drawn value is not in `seen`, with bounded fuel
(`none` models faker giving up with UniquenessException). -/
def uniqueDraw (raw : Nat → Int) (pos : Nat) (seen : List Int) : Nat → Option (Int × Nat)
  | 0 => none
  | fuel + 1 =>
      let v := raw pos
      if seen.contains v then uniqueDraw raw (pos + 1) seen fuel else some (v, pos + 1)

/-- The sequence of `n` unique ids drawn during one run, starting from raw
stream position `pos` with `seen` already returned. -/
def uniqueSeq (raw : Nat → Int) : Nat → Nat → List Int → Option (List Int)
  | 0, _, _ => some []
  | n + 1, pos, seen =>
      match uniqueDraw raw pos seen 1000 with
      | none => none
      | some (v, pos') => (uniqueSeq raw n pos' (v :: seen)).map (fun ids => v :: ids)

/- ----------------------------------------------------------------------
Seeded generation for the determinism property: `Faker.seed(s)` fixes the
shared random state, after which every drawn value is a function of the
seed alone.  A concrete linear congruential generator stands in for that
seeded state.
---------------------------------------------------------------------- -/

/-- One step of a linear congruential generator. -/
def lcgNext (s : Nat) : Nat := (1103515245 * s + 12345) % 4294967296

/-- The seeded random stream: value number `n` drawn after seeding with
`seed`. -/
def lcgAt (seed : Nat) : Nat → Nat
  | 0 => lcgNext seed
  | n + 1 => lcgNext (lcgAt seed n)

/-- Decimal digit characters. -/
def dChar : Nat → Char
  | 0 => '0' | 1 => '1' | 2 => '2' | 3 => '3' | 4 => '4'
  | 5 => '5' | 6 => '6' | 7 => '7' | 8 => '8' | _ => '9'

/-- Decimal representation of a natural number (Python `str(n)` /
`repr(n)` for nonnegative ints). -/
def natChars (n : Nat) : List Char :=
  if n = 0 then ['0'] else ((Nat.digits 10 n).reverse).map dChar

/-- Decimal representation of an integer. -/
def intChars (n : Int) : List Char :=
  if n < 0 then '-' :: natChars n.natAbs else natChars n.toNat

/-- A small pool of first names standing in for faker's name data. -/
def firstNamePool : List String :=
  ["Alice", "Bob", "Carol", "David", "Erin", "Frank", "Grace", "Henry"]

/-- A small pool of last names standing in for faker's name data. -/
def lastNamePool : List String :=
  ["Smith", "Jones", "Brown", "Davis", "Miller", "Wilson", "Moore", "Taylor"]

/-- A phone-format string derived from one raw draw. -/
def phoneOf (n : Nat) : String := "555-" ++ String.mk (natChars (n % 10000))

/-- The synthetic identity drawn for the i-th expert once the global
faker state has been seeded: five consecutive draws (id, first name,
last name, phone, mobile), all determined by the seed. -/
def fakesFromSeed (seed : Nat) (i : Nat) : FakeIdentity :=
  { fid := 111111 + Int.ofNat (lcgAt seed (5 * i) % 888889)
  , firstName := firstNamePool.getD (lcgAt seed (5 * i + 1) % 8) "Alice"
  , lastName := lastNamePool.getD (lcgAt seed (5 * i + 2) % 8) "Smith"
  , phone := phoneOf (lcgAt seed (5 * i + 3))
  , mobile := phoneOf (lcgAt seed (5 * i + 4)) }

/- ----------------------------------------------------------------------
JSON serialization (json.dump / json.dumps) and parsing (json.load),
modelling CPython's json module on the value shapes of this pipeline:
`indent=n` pretty-printing, `ensure_ascii` on or off.
---------------------------------------------------------------------- -/

/-- Opening brace character, kept out of string literals. -/
def lbrace : Char := Char.ofNat 123

/-- Closing brace character, kept out of string literals. -/
def rbrace : Char := Char.ofNat 125

/-- Lowercase hexadecimal digit characters (as CPython's json emits). -/
def hexChar : Nat → Char
  | 0 => '0' | 1 => '1' | 2 => '2' | 3 => '3' | 4 => '4' | 5 => '5' | 6 => '6' | 7 => '7'
  | 8 => '8' | 9 => '9' | 10 => 'a' | 11 => 'b' | 12 => 'c' | 13 => 'd' | 14 => 'e' | _ => 'f'

/-- A `\uXXXX` escape for a code unit. -/
def uEscape (n : Nat) : List Char :=
  ['\\', 'u', hexChar (n / 4096 % 16), hexChar (n / 256 % 16), hexChar (n / 16 % 16),
   hexChar (n % 16)]

/-- CPython json escaping of one character: `\"`, `\\`, the short control
escapes `\n` `\t` `\r` `\b` `\f`, `\uXXXX` for the remaining control
characters, and — only with `ensure_ascii` — `\uXXXX` (with surrogate
pairs beyond the BMP) for every non-ASCII character. -/
def escapeChar (ascii : Bool) (c : Char) : List Char :=
  if c = '"' then ['\\', '"']
  else if c = '\\' then ['\\', '\\']
  else if c = '\n' then ['\\', 'n']
  else if c = '\t' then ['\\', 't']
  else if c = '\r' then ['\\', 'r']
  else if c.toNat = 8 then ['\\', 'b']
  else if c.toNat = 12 then ['\\', 'f']
  else if c.toNat < 32 then uEscape c.toNat
  else if ascii && 126 < c.toNat then
    if c.toNat < 65536 then uEscape c.toNat
    else uEscape (55296 + (c.toNat - 65536) / 1024) ++ uEscape (56320 + (c.toNat - 65536) % 1024)
  else [c]

/-- Escape a whole string body. -/
def escapeChars (ascii : Bool) : List Char → List Char
  | [] => []
  | c :: cs => escapeChar ascii c ++ escapeChars ascii cs

/-- A JSON string literal: quote, escaped body, quote. -/
def dumpStrLit (ascii : Bool) (s : String) : List Char :=
  '"' :: (escapeChars ascii s.data ++ ['"'])

/-- Indentation emitted by `json.dump(..., indent=ind)` at nesting depth
`level`. -/
def indentChars (n : Nat) : List Char := List.replicate n ' '

/-- The characters of the literal `null`. -/
def nullChars : List Char := "null".data

/-- The characters of the literal `true`. -/
def trueChars : List Char := "true".data

/-- The characters of the literal `false`. -/
def falseChars : List Char := "false".data

/- The pretty printer of `json.dump(value, f, indent=ind)`: empty
containers print as `[]` and the brace pair; nonempty containers put every
item on its own line at one deeper indent, separated by commas, with the
key separator `: ` inside objects. -/
mutual
def dumpVal (ascii : Bool) (ind : Nat) (level : Nat) : JValue → List Char
  | .null => nullChars
  | .bool true => trueChars
  | .bool false => falseChars
  | .num n => intChars n
  | .str s => dumpStrLit ascii s
  | .arr [] => ['[', ']']
  | .arr (x :: xs) =>
      '[' :: '\n' :: (indentChars (ind * (level + 1)) ++ dumpVal ascii ind (level + 1) x
        ++ dumpItems ascii ind (level + 1) xs
        ++ '\n' :: (indentChars (ind * level) ++ [']']))
  | .obj [] => [lbrace, rbrace]
  | .obj ((k, v) :: fs) =>
      lbrace :: '\n' :: (indentChars (ind * (level + 1)) ++ dumpStrLit ascii k
        ++ ':' :: ' ' :: dumpVal ascii ind (level + 1) v
        ++ dumpMembers ascii ind (level + 1) fs
        ++ '\n' :: (indentChars (ind * level) ++ [rbrace]))
def dumpItems (ascii : Bool) (ind : Nat) (level : Nat) : List JValue → List Char
  | [] => []
  | x :: xs =>
      ',' :: '\n' :: (indentChars (ind * level) ++ dumpVal ascii ind level x
        ++ dumpItems ascii ind level xs)
def dumpMembers (ascii : Bool) (ind : Nat) (level : Nat) : List (String × JValue) → List Char
  | [] => []
  | (k, v) :: fs =>
      ',' :: '\n' :: (indentChars (ind * level) ++ dumpStrLit ascii k
        ++ ':' :: ' ' :: dumpVal ascii ind level v
        ++ dumpMembers ascii ind level fs)
end

/-- `json.dumps(value, indent=ind)` with the given `ensure_ascii` flag. -/
def dumps (ascii : Bool) (ind : Nat) (v : JValue) : String :=
  String.mk (dumpVal ascii ind 0 v)

/-- `DataProcessor.save_json` (src/tools/export.py lines 150-157): the
bytes written are `json.dump(data, f, indent=2, ensure_ascii=False)`. -/
def save_json (v : JValue) : String := dumps false 2 v

/-- JSON whitespace. -/
def isWsChar (c : Char) : Bool := c == ' ' || c == '\n' || c == '\t' || c == '\r'

/-- Skip leading whitespace. -/
def skipWs : List Char → List Char
  | [] => []
  | c :: cs => if isWsChar c then skipWs cs else c :: cs

/-- Consume an expected literal character sequence. -/
def expectChars : List Char → List Char → Option (List Char)
  | [], cs => some cs
  | _ :: _, [] => none
  | e :: es, c :: cs => if c == e then expectChars es cs else none

/-- Decode one short escape character. -/
def unescapeChar (c : Char) : Option Char :=
  if c = '"' then some '"'
  else if c = '\\' then some '\\'
  else if c = '/' then some '/'
  else if c = 'n' then some '\n'
  else if c = 't' then some '\t'
  else if c = 'r' then some '\r'
  else if c = 'b' then some (Char.ofNat 8)
  else if c = 'f' then some (Char.ofNat 12)
  else none

/-- Hexadecimal digit values. -/
def hexVal (c : Char) : Option Nat :=
  if c = '0' then some 0 else if c = '1' then some 1 else if c = '2' then some 2
  else if c = '3' then some 3 else if c = '4' then some 4 else if c = '5' then some 5
  else if c = '6' then some 6 else if c = '7' then some 7 else if c = '8' then some 8
  else if c = '9' then some 9 else if c = 'a' then some 10 else if c = 'b' then some 11
  else if c = 'c' then some 12 else if c = 'd' then some 13 else if c = 'e' then some 14
  else if c = 'f' then some 15 else if c = 'A' then some 10 else if c = 'B' then some 11
  else if c = 'C' then some 12 else if c = 'D' then some 13 else if c = 'E' then some 14
  else if c = 'F' then some 15 else none

/-- Parse the body of a JSON string literal after the opening quote, up to
and including the closing quote. -/
def parseStringBody : List Char → Option (List Char × List Char)
  | [] => none
  | c :: cs =>
      if c = '"' then some ([], cs)
      else if c = '\\' then
        match cs with
        | [] => none
        | e :: cs' =>
            if e = 'u' then
              match cs' with
              | h1 :: h2 :: h3 :: h4 :: cs'' =>
                  match hexVal h1, hexVal h2, hexVal h3, hexVal h4 with
                  | some a, some b, some c2, some d =>
                      (parseStringBody cs'').map
                        (fun p => (Char.ofNat (((a * 16 + b) * 16 + c2) * 16 + d) :: p.1, p.2))
                  | _, _, _, _ => none
              | _ => none
            else
              match unescapeChar e with
              | some c' => (parseStringBody cs').map (fun p => (c' :: p.1, p.2))
              | none => none
      else (parseStringBody cs).map (fun p => (c :: p.1, p.2))
  termination_by structural cs => cs

/-- Decimal digit values. -/
def digitVal (c : Char) : Option Nat :=
  if c = '0' then some 0 else if c = '1' then some 1 else if c = '2' then some 2
  else if c = '3' then some 3 else if c = '4' then some 4 else if c = '5' then some 5
  else if c = '6' then some 6 else if c = '7' then some 7 else if c = '8' then some 8
  else if c = '9' then some 9 else none

/-- Take a maximal run of decimal digits. -/
def takeDigits : List Char → (List Nat × List Char)
  | [] => ([], [])
  | c :: cs =>
      match digitVal c with
      | some d => let p := takeDigits cs; (d :: p.1, p.2)
      | none => ([], c :: cs)

/-- Combine big-endian decimal digits. -/
def foldDigits (ds : List Nat) : Nat := ds.foldl (fun a d => 10 * a + d) 0

/-- Parse a JSON integer (the number shapes this pipeline serializes). -/
def parseNumber (cs : List Char) : Option (JValue × List Char) :=
  match cs with
  | [] => none
  | c :: rest =>
      if c = '-' then
        match takeDigits rest with
        | ([], _) => none
        | (d :: ds, r) => some (.num (-(foldDigits (d :: ds) : Int)), r)
      else
        match takeDigits (c :: rest) with
        | ([], _) => none
        | (d :: ds, r) => some (.num (foldDigits (d :: ds)), r)

/-- Assemble parsed key/value pairs the way `dict(pairs)` does: a repeated
key keeps its first position and takes its last value. -/
def buildDict (pairs : List (String × JValue)) : Record :=
  pairs.foldl (fun acc p => recSet acc p.1 p.2) []

/- Recursive-descent JSON value parsing with explicit fuel (every
recursive call decreases the fuel; the fuel needed is bounded by the node
count of the value). -/
mutual
def parseValue : Nat → List Char → Option (JValue × List Char)
  | 0, _ => none
  | fuel + 1, cs =>
      match skipWs cs with
      | [] => none
      | c :: rest =>
          if c = 'n' then (expectChars ['u', 'l', 'l'] rest).map (fun r => (.null, r))
          else if c = 't' then (expectChars ['r', 'u', 'e'] rest).map (fun r => (.bool true, r))
          else if c = 'f' then (expectChars ['a', 'l', 's', 'e'] rest).map (fun r => (.bool false, r))
          else if c = '"' then (parseStringBody rest).map (fun p => (.str (String.mk p.1), p.2))
          else if c = '[' then
            match skipWs rest with
            | [] => none
            | c0 :: r =>
                if c0 = ']' then some (.arr [], r)
                else (parseItems fuel (c0 :: r)).map (fun p => (.arr p.1, p.2))
          else if c = lbrace then
            match skipWs rest with
            | [] => none
            | c0 :: r =>
                if c0 = rbrace then some (.obj [], r)
                else (parseMembers fuel (c0 :: r)).map (fun p => (.obj (buildDict p.1), p.2))
          else parseNumber (c :: rest)
def parseItems : Nat → List Char → Option (List JValue × List Char)
  | 0, _ => none
  | fuel + 1, cs => do
      let p ← parseValue fuel cs
      match skipWs p.2 with
      | [] => none
      | c :: r =>
          if c = ',' then (parseItems fuel r).map (fun q => (p.1 :: q.1, q.2))
          else if c = ']' then some ([p.1], r)
          else none
def parseMembers : Nat → List Char → Option (List (String × JValue) × List Char)
  | 0, _ => none
  | fuel + 1, cs =>
      match skipWs cs with
      | [] => none
      | q :: rest =>
          if q = '"' then
            match parseStringBody rest with
            | none => none
            | some kp =>
                match skipWs kp.2 with
                | [] => none
                | c2 :: r2 =>
                    if c2 = ':' then
                      match parseValue fuel r2 with
                      | none => none
                      | some vp =>
                          match skipWs vp.2 with
                          | [] => none
                          | c4 :: r4 =>
                              if c4 = ',' then
                                (parseMembers fuel r4).map
                                  (fun mp => ((String.mk kp.1, vp.1) :: mp.1, mp.2))
                              else if c4 = rbrace then
                                some ([(String.mk kp.1, vp.1)], r4)
                              else none
                    else none
          else none
end

/-- `json.load` / `DataProcessor.load_json`: parse a complete JSON
document; trailing non-whitespace is an error (`Extra data`). -/
def load_json (s : String) : Option JValue :=
  match parseValue (s.data.length + 1) s.data with
  | some (v, rest) => if (skipWs rest).isEmpty then some v else none
  | none => none

/- Node count of a JSON value, bounding the parsing fuel it needs. -/
mutual
def jsize : JValue → Nat
  | .null => 1
  | .bool _ => 1
  | .num _ => 1
  | .str _ => 1
  | .arr xs => 1 + jsizeList xs
  | .obj fs => 1 + jsizeFields fs
def jsizeList : List JValue → Nat
  | [] => 0
  | x :: xs => 1 + jsize x + jsizeList xs
def jsizeFields : List (String × JValue) → Nat
  | [] => 0
  | (_, v) :: fs => 1 + jsize v + jsizeFields fs
end

/-- Key uniqueness at one object level. -/
def keysUnique : List (String × JValue) → Bool
  | [] => true
  | (k, _) :: fs => !(fs.any (fun p => p.1 == k)) && keysUnique fs

/- Well-formed JSON data: every object has pairwise distinct keys — true
of every value a Python dict structure can serialize. -/
mutual
def wfJ : JValue → Bool
  | .null => true
  | .bool _ => true
  | .num _ => true
  | .str _ => true
  | .arr xs => wfJList xs
  | .obj fs => keysUnique fs && wfJFields fs
def wfJList : List JValue → Bool
  | [] => true
  | x :: xs => wfJ x && wfJList xs
def wfJFields : List (String × JValue) → Bool
  | [] => true
  | (_, v) :: fs => wfJ v && wfJFields fs
end

/-- The two byte strings produced by one seeded run of `anonymize_data`:
the contents of works_cleaned.json and experts_cleaned.json, serialized
with `json.dumps(..., indent=4)` (`ensure_ascii` left at its default). -/
def run_anonymize_files (seed : Nat) (expert_data data : List Record) :
    Except PyErr (String × String) :=
  (anonymize_data expert_data data (fakesFromSeed seed)).map (fun p =>
    (dumps true 4 (.arr (p.2.map .obj)), dumps true 4 (.arr (p.1.map .obj))))

/-- The multiset of values of field `k` across a list of records (used to
state the linkage-preservation property). -/
def fieldVals (rs : List Record) (k : String) : List JValue :=
  rs.filterMap (fun r => recGet r k)

/-- A character stream that does not begin with a decimal digit (the
continuations produced by the pretty printer after a number). -/
def headNotDigit : List Char → Bool
  | [] => true
  | c :: _ => (digitVal c).isNone

/- ----------------------------------------------------------------------
Theorems.  First the small lemma kit about the value model and the record
operations, then the claims.
---------------------------------------------------------------------- -/

mutual
theorem jeq_eq : ∀ (a b : JValue), jeq a b = true → a = b
  | .null, .null, _ => rfl
  | .bool _, .bool _, h => by
      simp only [jeq, beq_iff_eq] at h; rw [h]
  | .num _, .num _, h => by
      simp only [jeq, beq_iff_eq] at h; rw [h]
  | .str _, .str _, h => by
      simp only [jeq, beq_iff_eq] at h; rw [h]
  | .arr xs, .arr ys, h => by
      rw [jeqList_eq xs ys h]
  | .obj fs, .obj gs, h => by
      rw [jeqFields_eq fs gs h]
  | .null, .bool _, h => by simp [jeq] at h
  | .null, .num _, h => by simp [jeq] at h
  | .null, .str _, h => by simp [jeq] at h
  | .null, .arr _, h => by simp [jeq] at h
  | .null, .obj _, h => by simp [jeq] at h
  | .bool _, .null, h => by simp [jeq] at h
  | .bool _, .num _, h => by simp [jeq] at h
  | .bool _, .str _, h => by simp [jeq] at h
  | .bool _, .arr _, h => by simp [jeq] at h
  | .bool _, .obj _, h => by simp [jeq] at h
  | .num _, .null, h => by simp [jeq] at h
  | .num _, .bool _, h => by simp [jeq] at h
  | .num _, .str _, h => by simp [jeq] at h
  | .num _, .arr _, h => by simp [jeq] at h
  | .num _, .obj _, h => by simp [jeq] at h
  | .str _, .null, h => by simp [jeq] at h
  | .str _, .bool _, h => by simp [jeq] at h
  | .str _, .num _, h => by simp [jeq] at h
  | .str _, .arr _, h => by simp [jeq] at h
  | .str _, .obj _, h => by simp [jeq] at h
  | .arr _, .null, h => by simp [jeq] at h
  | .arr _, .bool _, h => by simp [jeq] at h
  | .arr _, .num _, h => by simp [jeq] at h
  | .arr _, .str _, h => by simp [jeq] at h
  | .arr _, .obj _, h => by simp [jeq] at h
  | .obj _, .null, h => by simp [jeq] at h
  | .obj _, .bool _, h => by simp [jeq] at h
  | .obj _, .num _, h => by simp [jeq] at h
  | .obj _, .str _, h => by simp [jeq] at h
  | .obj _, .arr _, h => by simp [jeq] at h
theorem jeqList_eq : ∀ (xs ys : List JValue), jeqList xs ys = true → xs = ys
  | [], [], _ => rfl
  | x :: xs, y :: ys, h => by
      simp only [jeqList, Bool.and_eq_true] at h
      rw [jeq_eq x y h.1, jeqList_eq xs ys h.2]
  | [], _ :: _, h => by simp [jeqList] at h
  | _ :: _, [], h => by simp [jeqList] at h
theorem jeqFields_eq : ∀ (fs gs : List (String × JValue)), jeqFields fs gs = true → fs = gs
  | [], [], _ => rfl
  | (k, v) :: fs, (l, w) :: gs, h => by
      simp only [jeqFields, Bool.and_eq_true, beq_iff_eq] at h
      rw [h.1.1, jeq_eq v w h.1.2, jeqFields_eq fs gs h.2]
  | [], _ :: _, h => by simp [jeqFields] at h
  | _ :: _, [], h => by simp [jeqFields] at h
end

mutual
theorem jeq_refl : ∀ (a : JValue), jeq a a = true
  | .null => rfl
  | .bool _ => by simp [jeq]
  | .num _ => by simp [jeq]
  | .str _ => by simp [jeq]
  | .arr xs => by simp only [jeq]; exact jeqList_refl xs
  | .obj fs => by simp only [jeq]; exact jeqFields_refl fs
theorem jeqList_refl : ∀ (xs : List JValue), jeqList xs xs = true
  | [] => rfl
  | x :: xs => by simp only [jeqList, Bool.and_eq_true]; exact ⟨jeq_refl x, jeqList_refl xs⟩
theorem jeqFields_refl : ∀ (fs : List (String × JValue)), jeqFields fs fs = true
  | [] => rfl
  | (k, v) :: fs => by
      simp only [jeqFields, Bool.and_eq_true, beq_self_eq_true]
      exact ⟨⟨trivial, jeq_refl v⟩, jeqFields_refl fs⟩
end

theorem jeq_iff (a b : JValue) : jeq a b = true ↔ a = b :=
  ⟨jeq_eq a b, fun h => h ▸ jeq_refl a⟩

theorem pyEq_iff (a b : JValue) : pyEq a b = true ↔ pyNorm a = pyNorm b :=
  jeq_iff (pyNorm a) (pyNorm b)

theorem pyEq_symm {a b : JValue} (h : pyEq a b = true) : pyEq b a = true := by
  rw [pyEq_iff] at h ⊢; exact h.symm

theorem pyEq_trans {a b c : JValue} (h1 : pyEq a b = true) (h2 : pyEq b c = true) :
    pyEq a c = true := by
  rw [pyEq_iff] at h1 h2 ⊢; exact h1.trans h2

theorem pyEq_not_of_not_left {a b c : JValue} (h : pyEq a b = false) (hbc : pyEq c b = true) :
    pyEq a c = false := by
  by_contra hac
  rw [Bool.not_eq_false] at hac
  have h2 := pyEq_trans hac hbc
  rw [h2] at h
  exact Bool.noConfusion h

theorem recGet_recSet_self (r : Record) (k : String) (v : JValue) :
    recGet (recSet r k v) k = some v := by
  induction r with
  | nil => simp [recSet, recGet]
  | cons p rest ih =>
      obtain ⟨k', v'⟩ := p
      by_cases h : k' = k
      · simp [recSet, recGet, h]
      · simp [recSet, recGet, h, ih]

theorem recGet_recSet_ne (r : Record) (k k' : String) (v : JValue) (h : k ≠ k') :
    recGet (recSet r k v) k' = recGet r k' := by
  induction r with
  | nil => simp [recSet, recGet, h]
  | cons p rest ih =>
      obtain ⟨k'', v''⟩ := p
      by_cases h2 : k'' = k
      · subst h2; simp [recSet, recGet, h]
      · simp only [recSet, if_neg h2]
        by_cases h3 : k'' = k'
        · simp [recGet, h3]
        · simp [recGet, h3, ih]

theorem recGet_recDel_self (r : Record) (k : String) :
    recGet (recDel r k) k = none := by
  induction r with
  | nil => simp [recDel, recGet]
  | cons p rest ih =>
      obtain ⟨k', v'⟩ := p
      by_cases h : k' = k
      · simp [recDel, h, ih]
      · simp [recDel, recGet, h, ih]

theorem recGet_recDel_ne (r : Record) (k k' : String) (h : k ≠ k') :
    recGet (recDel r k) k' = recGet r k' := by
  induction r with
  | nil => simp [recDel]
  | cons p rest ih =>
      obtain ⟨k'', v''⟩ := p
      by_cases h2 : k'' = k
      · subst h2; simp [recDel, recGet, h, ih]
      · simp [recDel, recGet, h2, ih]

theorem recGet_foldl_recDel (l : List String) (r : Record) (k : String) :
    recGet (l.foldl recDel r) k = if k ∈ l then none else recGet r k := by
  induction l generalizing r with
  | nil => simp
  | cons a rest ih =>
      by_cases h : k = a
      · subst h
        simp only [List.foldl_cons, ih, List.mem_cons, true_or, if_true]
        by_cases h2 : k ∈ rest
        · simp [h2]
        · simp [h2, recGet_recDel_self]
      · simp only [List.foldl_cons, ih, List.mem_cons]
        by_cases h2 : k ∈ rest
        · simp [h2]
        · simp [h2, h, recGet_recDel_ne r a k (Ne.symm h)]

theorem recGet_remove_data (r : Record) (k : String) :
    recGet (remove_data r) k = if k ∈ remove_list then none else recGet r k :=
  recGet_foldl_recDel remove_list r k

theorem recGet_setIfPresent_self (r : Record) (k : String) (v : JValue) :
    recGet (setIfPresent r k v) k = (recGet r k).map (fun _ => v) := by
  unfold setIfPresent
  cases h : recGet r k with
  | some w => simp [recGet_recSet_self]
  | none => exact h

theorem recGet_setIfPresent_ne (r : Record) (k k' : String) (v : JValue) (h : k ≠ k') :
    recGet (setIfPresent r k v) k' = recGet r k' := by
  unfold setIfPresent
  cases h2 : recGet r k with
  | some w => simp [recGet_recSet_ne r k k' v h]
  | none => rfl

theorem pyEq_false_trans {a b c : JValue} (hab : pyEq a b = true) (hbc : pyEq b c = false) :
    pyEq a c = false := by
  cases h : pyEq a c with
  | false => rfl
  | true =>
      have h2 := pyEq_trans (pyEq_symm hab) h
      rw [h2] at hbc
      exact Bool.noConfusion hbc

theorem dictFindD_appendAt_eq (m : WDict) (eid k : JValue) (w : Record)
    (h : pyEq eid k = true) :
    dictFindD (dictAppendAt m eid w) k = dictFindD m k ++ [w] := by
  induction m with
  | nil => simp [dictAppendAt, dictFindD, h]
  | cons p rest ih =>
      obtain ⟨k', ws⟩ := p
      cases h2 : pyEq k' eid with
      | true =>
          have h3 : pyEq k' k = true := pyEq_trans h2 h
          simp [dictAppendAt, dictFindD, h2, h3]
      | false =>
          have h3 : pyEq k' k = false := pyEq_not_of_not_left h2 (pyEq_symm h)
          simp [dictAppendAt, dictFindD, h2, h3, ih]

theorem dictFindD_appendAt_ne (m : WDict) (eid k : JValue) (w : Record)
    (h : pyEq eid k = false) :
    dictFindD (dictAppendAt m eid w) k = dictFindD m k := by
  induction m with
  | nil => simp [dictAppendAt, dictFindD, h]
  | cons p rest ih =>
      obtain ⟨k', ws⟩ := p
      cases h2 : pyEq k' eid with
      | true =>
          have h3 : pyEq k' k = false := pyEq_false_trans h2 h
          simp [dictAppendAt, dictFindD, h2, h3]
      | false =>
          simp [dictAppendAt, dictFindD, h2, ih]

theorem buildWorksByExpert_ok (works : List Record)
    (hw : ∀ w ∈ works, pyTruthy (ridOf w) = true → hashable (ridOf w) = true) (m : WDict) :
    ∃ m', buildWorksByExpert works m = .ok m' ∧
      ∀ k, dictFindD m' k =
        dictFindD m k ++ works.filter (fun w => pyTruthy (ridOf w) && pyEq (ridOf w) k) := by
  induction works generalizing m with
  | nil => exact ⟨m, rfl, fun k => by simp⟩
  | cons w rest ih =>
      have hw' : ∀ x ∈ rest, pyTruthy (ridOf x) = true → hashable (ridOf x) = true :=
        fun x hx => hw x (List.mem_cons_of_mem _ hx)
      cases ht : pyTruthy (ridOf w) with
      | false =>
          obtain ⟨m', hok, hfind⟩ := ih hw' m
          refine ⟨m', ?_, fun k => ?_⟩
          · simp only [buildWorksByExpert]
            rw [ht, if_neg Bool.false_ne_true]
            exact hok
          · rw [hfind k]
            simp [List.filter_cons, ht]
      | true =>
          have hh := hw w (List.mem_cons_self w rest) ht
          obtain ⟨m', hok, hfind⟩ := ih hw' (dictAppendAt m (ridOf w) w)
          refine ⟨m', ?_, fun k => ?_⟩
          · simp only [buildWorksByExpert]
            rw [ht, if_pos rfl, hh, if_pos rfl]
            exact hok
          · rw [hfind k]
            cases he : pyEq (ridOf w) k with
            | true =>
                rw [dictFindD_appendAt_eq m (ridOf w) k w he]
                simp [List.filter_cons, ht, he]
            | false =>
                rw [dictFindD_appendAt_ne m (ridOf w) k w he]
                simp [List.filter_cons, ht, he]

theorem mapM_ok_of_forall {α β : Type} (f : α → Except PyErr β) (g : α → β) (l : List α)
    (h : ∀ a ∈ l, f a = .ok (g a)) : l.mapM f = .ok (l.map g) := by
  induction l with
  | nil => rfl
  | cons a rest ih =>
      rw [List.mapM_cons, h a (List.mem_cons_self a rest),
        ih (fun x hx => h x (List.mem_cons_of_mem _ hx))]
      rfl

/-- C1 (amended): for hashable ids, `combine_experts_with_works` attaches
to each expert exactly the works whose `ExpertId` is Python-truthy and
equal (Python `==`) to the expert's `Id`, in their original relative
order; a work whose `ExpertId` is absent, falsy (e.g. `0` or the empty
string — dropped by the `if expert_id:` guard even when some expert has
that exact `Id`), or unmatched appears in no expert's `works` list. -/
theorem c1_combine_characterization (experts works : List Record)
    (hw : ∀ w ∈ works, pyTruthy (ridOf w) = true → hashable (ridOf w) = true)
    (he : ∀ e ∈ experts, hashable (idOf e) = true) :
    combine_experts_with_works experts works =
      .ok (experts.map (fun e =>
        recSet e "works" (.arr ((works.filter
          (fun w => pyTruthy (ridOf w) && pyEq (ridOf w) (idOf e))).map JValue.obj)))) := by
  obtain ⟨m', hok, hfind⟩ := buildWorksByExpert_ok works hw []
  unfold combine_experts_with_works
  rw [hok]
  show experts.mapM _ = _
  have hmap := mapM_ok_of_forall
      (fun e => if hashable (idOf e) then
          pure (recSet e "works" (.arr ((dictFindD m' (idOf e)).map JValue.obj)))
        else Except.error PyErr.typeError)
      (fun e => recSet e "works" (.arr ((dictFindD m' (idOf e)).map JValue.obj)))
      experts
      (fun e hee => by simp [he e hee]; rfl)
  rw [hmap]
  have hfg : (fun e : Record =>
        recSet e "works" (JValue.arr (List.map JValue.obj (dictFindD m' (idOf e))))) =
      (fun e : Record =>
        recSet e "works" (JValue.arr (List.map JValue.obj
          (List.filter (fun w => pyTruthy (ridOf w) && pyEq (ridOf w) (idOf e)) works)))) :=
    funext (fun e => by rw [hfind (idOf e)]; rfl)
  rw [hfg]

/-- Witness for C1: one expert with `Id` the string `e1`; of two works,
the one whose `ExpertId` is `e1` is attached (once, first), the unmatched
one is dropped. -/
theorem c1_combine_characterization_witness :
    combine_experts_with_works [[("Id", JValue.str "e1")]]
        [[("ExpertId", JValue.str "e1")], [("ExpertId", JValue.str "zz")]] =
      .ok [[("Id", JValue.str "e1"),
            ("works", JValue.arr [JValue.obj [("ExpertId", JValue.str "e1")]])]] := by
  have h := c1_combine_characterization [[("Id", JValue.str "e1")]]
      [[("ExpertId", JValue.str "e1")], [("ExpertId", JValue.str "zz")]]
      (by
        intro w hw
        rcases List.mem_cons.mp hw with rfl | hw
        · intro _; rfl
        rcases List.mem_cons.mp hw with rfl | hw
        · intro _; rfl
        · exact absurd hw (List.not_mem_nil w))
      (by
        intro e hee
        rcases List.mem_cons.mp hee with rfl | hee
        · rfl
        · exact absurd hee (List.not_mem_nil e))
  rw [h]
  rfl

/-- C1 counterexample: claim C1 states that a work whose `ExpertId` equals
an expert's `Id` always lands in that expert's `works`; with `Id = 0` and
`ExpertId = 0` the two ids are equal, yet the `if expert_id:` truthiness
guard drops the work and the expert's `works` list comes out empty. -/
theorem c1_counterexample :
    pyEq (ridOf [("ExpertId", JValue.num 0)]) (idOf [("Id", JValue.num 0)]) = true ∧
    combine_experts_with_works [[("Id", JValue.num 0)]] [[("ExpertId", JValue.num 0)]] =
      .ok [[("Id", JValue.num 0), ("works", JValue.arr [])]] :=
  ⟨rfl, rfl⟩

/-- C2 (amended): a transport failure or malformed JSON in
`get_outputs_and_works` is fatal and propagates; but in
`get_expert_profile` every exception — including transport failures and
malformed JSON from `_make_request` — is caught by the blanket
`except Exception`, logged and converted to `None` (the id is skipped and
the run continues), exactly like the designated non-fatal empty
`RecordList` case. -/
theorem c2_amended_failure_policy (o w r : HttpOutcome) (e : ApiError) (b : JValue) :
    (make_request o = .error e → get_outputs_and_works o w = .error e) ∧
    (make_request o = .ok b → make_request w = .error e →
      get_outputs_and_works o w = .error e) ∧
    (make_request r = .error e → get_expert_profile r = none) ∧
    get_expert_profile (HttpOutcome.ok (.obj [("RecordList", JValue.arr [])])) = none := by
  refine ⟨?_, ?_, ?_, rfl⟩
  · intro h
    unfold get_outputs_and_works
    rw [h]
    rfl
  · intro h1 h2
    unfold get_outputs_and_works
    rw [h1, h2]
    rfl
  · intro h
    unfold get_expert_profile
    rw [h]

/-- Witness for C2 (amended), at concrete outcomes: a network failure on
the outputs request is fatal, a decode failure on the works request is
fatal, and a network failure on a profile request yields `None`. -/
theorem c2_amended_failure_policy_witness :
    get_outputs_and_works HttpOutcome.transportError HttpOutcome.invalidJson =
      .error ApiError.network ∧
    get_outputs_and_works (HttpOutcome.ok JValue.null) HttpOutcome.invalidJson =
      .error ApiError.decode ∧
    get_expert_profile HttpOutcome.transportError = none := by
  have h1 := c2_amended_failure_policy HttpOutcome.transportError HttpOutcome.invalidJson
      HttpOutcome.transportError ApiError.network JValue.null
  have h2 := c2_amended_failure_policy (HttpOutcome.ok JValue.null) HttpOutcome.invalidJson
      HttpOutcome.transportError ApiError.decode JValue.null
  exact ⟨h1.1 rfl, h2.2.1 rfl rfl, h1.2.2.1 rfl⟩

/-- C2 counterexample: claim C2 states that a network/transport failure is
always fatal and propagates to the caller; in `get_expert_profile` it is
instead swallowed — the result is `None`, indistinguishable from the
designated non-fatal empty-`RecordList` case, and the run continues. -/
theorem c2_counterexample :
    get_expert_profile HttpOutcome.transportError = none ∧
    get_expert_profile HttpOutcome.invalidJson = none ∧
    get_expert_profile (HttpOutcome.ok (.obj [("RecordList", JValue.arr [])])) = none :=
  ⟨rfl, rfl, rfl⟩

theorem isOutput_false (item : JValue) : isOutputByTypeName item = false := by
  cases item <;> rfl

theorem isWork_false (item : JValue) : isWorkByTypeName item = false := by
  cases item <;> rfl

theorem filter_isOutput_nil (items : List JValue) :
    items.filter isOutputByTypeName = [] := by
  induction items with
  | nil => rfl
  | cons x xs ih =>
      rw [List.filter_cons, isOutput_false x, if_neg Bool.false_ne_true]
      exact ih

theorem filter_isWork_nil (items : List JValue) :
    items.filter isWorkByTypeName = [] := by
  induction items with
  | nil => rfl
  | cons x xs ih =>
      rw [List.filter_cons, isWork_false x, if_neg Bool.false_ne_true]
      exact ih

/-- C9: for every input, the type-name string test
`'Output' in str(type(item)).title()` (and likewise `'Work'`) never
matches a JSON-decoded value, so `save_initial_data` writes `outputs.json`
and `works.json` as empty lists while `original_data.json` receives the
full collection; consequently the non-anonymized path, which combines
experts with the saved works file, attaches an empty `works` list to every
expert. -/
theorem c9_save_initial_data_type_test (items : List JValue) (experts : List Record)
    (he : ∀ e ∈ experts, hashable (idOf e) = true) :
    (save_initial_data items experts).outputs = [] ∧
    (save_initial_data items experts).works = [] ∧
    (save_initial_data items experts).original_data = items ∧
    combine_experts_with_works experts [] =
      .ok (experts.map (fun e => recSet e "works" (JValue.arr []))) := by
  refine ⟨filter_isOutput_nil items, filter_isWork_nil items, rfl, ?_⟩
  unfold combine_experts_with_works
  show experts.mapM _ = _
  exact mapM_ok_of_forall _ (fun e => recSet e "works" (JValue.arr [])) experts
    (fun e hee => by simp [he e hee]; rfl)

/-- Witness for C9: two concrete items (a dict and a string) both fail the
type-name test; a concrete expert gets an empty `works` list on the
non-anonymized path. -/
theorem c9_save_initial_data_type_test_witness :
    (save_initial_data [JValue.obj [("ExpertId", JValue.num 7)], JValue.str "x"]
        [[("Id", JValue.num 7)]]).outputs = [] ∧
    (save_initial_data [JValue.obj [("ExpertId", JValue.num 7)], JValue.str "x"]
        [[("Id", JValue.num 7)]]).works = [] ∧
    combine_experts_with_works [[("Id", JValue.num 7)]] [] =
      .ok [[("Id", JValue.num 7), ("works", JValue.arr [])]] := by
  have h := c9_save_initial_data_type_test
      [JValue.obj [("ExpertId", JValue.num 7)], JValue.str "x"]
      [[("Id", JValue.num 7)]]
      (by
        intro e hee
        rcases List.mem_cons.mp hee with rfl | hee
        · rfl
        · exact absurd hee (List.not_mem_nil e))
  exact ⟨h.1, h.2.1, h.2.2.2⟩

theorem anonNameStep_ok (r : Record) (a first last full : String)
    (h : strOpt (recGet r a) = true) :
    anonNameStep r a first last full =
      .ok (setIfPresent r a (.str (if strHasSub "FirstName" a then first
        else if strHasSub "LastName" a then last else full))) := by
  unfold anonNameStep setIfPresent
  cases h2 : recGet r a with
  | none => rfl
  | some v =>
      rw [h2] at h
      cases v <;> simp [strOpt] at h <;> rfl

theorem anonContactStep_ok (r : Record) (a email phone mobile : String)
    (h : strOpt (recGet r a) = true) :
    anonContactStep r a email phone mobile =
      .ok (if strHasSub "Email" a then setIfPresent r a (.str email)
        else if strHasSub "Phone" a then setIfPresent r a (.str phone)
        else if strHasSub "Mobile" a then setIfPresent r a (.str mobile)
        else r) := by
  cases h2 : recGet r a with
  | none => simp [anonContactStep, setIfPresent, h2]
  | some v =>
      rw [h2] at h
      cases v <;> simp [strOpt] at h
      simp [anonContactStep, setIfPresent, replaceSelf, Except.map, h2]
      rw [apply_ite Except.ok, apply_ite Except.ok, apply_ite Except.ok]

theorem anonymize_name_works_ok (r : Record) (first last full : String)
    (h : strOpt (recGet r "Owner") = true) :
    anonymize_name r works_list first last full =
      .ok (setIfPresent r "Owner" (.str full)) := by
  show (do
      let r1 ← anonNameStep r "Owner" first last full
      anonymize_name r1 [] first last full) = _
  rw [anonNameStep_ok r "Owner" first last full h]
  rfl

theorem anonymize_name_name_list_ok (e : Record) (first last full : String)
    (h1 : strOpt (recGet e "Title") = true) (h2 : strOpt (recGet e "FirstName") = true)
    (h3 : strOpt (recGet e "LastName") = true) :
    anonymize_name e name_list first last full =
      .ok (setIfPresent (setIfPresent (setIfPresent e "Title" (.str full))
        "FirstName" (.str first)) "LastName" (.str last)) := by
  have h2' : strOpt (recGet (setIfPresent e "Title" (.str full)) "FirstName") = true := by
    rw [recGet_setIfPresent_ne e "Title" "FirstName" _ (by decide)]; exact h2
  have h3' : strOpt (recGet (setIfPresent (setIfPresent e "Title" (.str full))
      "FirstName" (.str first)) "LastName") = true := by
    rw [recGet_setIfPresent_ne _ "FirstName" "LastName" _ (by decide),
      recGet_setIfPresent_ne e "Title" "LastName" _ (by decide)]
    exact h3
  show (do
      let r1 ← anonNameStep e "Title" first last full
      let r2 ← anonNameStep r1 "FirstName" first last full
      let r3 ← anonNameStep r2 "LastName" first last full
      anonymize_name r3 [] first last full) = _
  rw [anonNameStep_ok e "Title" first last full h1]
  show (do
      let r2 ← anonNameStep (setIfPresent e "Title" (.str full)) "FirstName" first last full
      let r3 ← anonNameStep r2 "LastName" first last full
      anonymize_name r3 [] first last full) = _
  rw [anonNameStep_ok _ "FirstName" first last full h2']
  show (do
      let r3 ← anonNameStep (setIfPresent (setIfPresent e "Title" (.str full))
          "FirstName" (.str first)) "LastName" first last full
      anonymize_name r3 [] first last full) = _
  rw [anonNameStep_ok _ "LastName" first last full h3']
  rfl

theorem anonymize_contacts_ok (r : Record) (email phone mobile : String)
    (h1 : strOpt (recGet r "Email") = true) (h2 : strOpt (recGet r "Phone") = true)
    (h3 : strOpt (recGet r "Mobile") = true) :
    anonymize_contacts r contact_list email phone mobile =
      .ok (setIfPresent (setIfPresent (setIfPresent r "Email" (.str email))
        "Phone" (.str phone)) "Mobile" (.str mobile)) := by
  have h2' : strOpt (recGet (setIfPresent r "Email" (.str email)) "Phone") = true := by
    rw [recGet_setIfPresent_ne r "Email" "Phone" _ (by decide)]; exact h2
  have h3' : strOpt (recGet (setIfPresent (setIfPresent r "Email" (.str email))
      "Phone" (.str phone)) "Mobile") = true := by
    rw [recGet_setIfPresent_ne _ "Phone" "Mobile" _ (by decide),
      recGet_setIfPresent_ne r "Email" "Mobile" _ (by decide)]
    exact h3
  show (do
      let r1 ← anonContactStep r "Email" email phone mobile
      let r2 ← anonContactStep r1 "Phone" email phone mobile
      let r3 ← anonContactStep r2 "Mobile" email phone mobile
      anonymize_contacts r3 [] email phone mobile) = _
  rw [anonContactStep_ok r "Email" email phone mobile h1]
  show (do
      let r2 ← anonContactStep (setIfPresent r "Email" (.str email)) "Phone" email phone mobile
      let r3 ← anonContactStep r2 "Mobile" email phone mobile
      anonymize_contacts r3 [] email phone mobile) = _
  rw [anonContactStep_ok _ "Phone" email phone mobile h2']
  show (do
      let r3 ← anonContactStep (setIfPresent (setIfPresent r "Email" (.str email))
          "Phone" (.str phone)) "Mobile" email phone mobile
      anonymize_contacts r3 [] email phone mobile) = _
  rw [anonContactStep_ok _ "Mobile" email phone mobile h3']
  rfl

theorem anonymize_id_works_ok (r : Record) (fid : Int) :
    anonymize_id r works_id_list fid = setIfPresent r "ExpertId" (.num fid) := by
  cases h : recGet r "ExpertId" with
  | none => simp [anonymize_id, anonIdStep, setIfPresent, h]
  | some v =>
      simp [anonymize_id, anonIdStep, setIfPresent, h,
        show strHasSub "Id" "ExpertId" = true from rfl]

theorem anonymize_id_id_ok (r : Record) (fid : Int) :
    anonymize_id r id_list fid = setIfPresent r "Id" (.num fid) := by
  cases h : recGet r "Id" with
  | none => simp [anonymize_id, anonIdStep, setIfPresent, h]
  | some v =>
      simp [anonymize_id, anonIdStep, setIfPresent, h,
        show strHasSub "Id" "Id" = true from rfl]

theorem goodWork_fields {r : Record} (h : goodWork r = true) :
    strOpt (recGet r "Owner") = true ∧ strOpt (recGet r "Email") = true ∧
    strOpt (recGet r "Phone") = true ∧ strOpt (recGet r "Mobile") = true := by
  simp only [goodWork, Bool.and_eq_true] at h
  exact ⟨h.1.1.1, h.1.1.2, h.1.2, h.2⟩

theorem goodExpert_fields {e : Record} (h : goodExpert e = true) :
    strOpt (recGet e "Title") = true ∧ strOpt (recGet e "FirstName") = true ∧
    strOpt (recGet e "LastName") = true ∧ strOpt (recGet e "Email") = true ∧
    strOpt (recGet e "Phone") = true ∧ strOpt (recGet e "Mobile") = true := by
  simp only [goodExpert, Bool.and_eq_true] at h
  exact ⟨h.1.1.1.1.1, h.1.1.1.1.2, h.1.1.1.2, h.1.1.2, h.1.2, h.2⟩

theorem recGet_remove_data_keep (r : Record) (k : String) (h : ¬ k ∈ remove_list) :
    recGet (remove_data r) k = recGet r k := by
  rw [recGet_remove_data, if_neg h]

theorem processMatchedRecord_ok (F : FakeIdentity) (r : Record) (h : goodWork r = true) :
    processMatchedRecord F r = .ok (cleanWork F r) := by
  obtain ⟨hOw, hEm, hPh, hMo⟩ := goodWork_fields h
  have hOw1 : strOpt (recGet (remove_data r) "Owner") = true := by
    rw [recGet_remove_data_keep r "Owner" (by decide)]; exact hOw
  unfold processMatchedRecord
  show (do
      let r2 ← anonymize_name (remove_data r) works_list F.firstName F.lastName (fakeFull F)
      let r3 ← anonymize_contacts r2 contact_list (fakeEmail F) F.phone F.mobile
      pure (anonymize_id r3 works_id_list F.fid)) = Except.ok (cleanWork F r)
  rw [anonymize_name_works_ok (remove_data r) F.firstName F.lastName (fakeFull F) hOw1]
  have hEm1 : strOpt (recGet (setIfPresent (remove_data r) "Owner" (.str (fakeFull F)))
      "Email") = true := by
    rw [recGet_setIfPresent_ne _ "Owner" "Email" _ (by decide),
      recGet_remove_data_keep r "Email" (by decide)]
    exact hEm
  have hPh1 : strOpt (recGet (setIfPresent (remove_data r) "Owner" (.str (fakeFull F)))
      "Phone") = true := by
    rw [recGet_setIfPresent_ne _ "Owner" "Phone" _ (by decide),
      recGet_remove_data_keep r "Phone" (by decide)]
    exact hPh
  have hMo1 : strOpt (recGet (setIfPresent (remove_data r) "Owner" (.str (fakeFull F)))
      "Mobile") = true := by
    rw [recGet_setIfPresent_ne _ "Owner" "Mobile" _ (by decide),
      recGet_remove_data_keep r "Mobile" (by decide)]
    exact hMo
  show (do
      let r3 ← anonymize_contacts (setIfPresent (remove_data r) "Owner" (.str (fakeFull F)))
          contact_list (fakeEmail F) F.phone F.mobile
      Except.ok (anonymize_id r3 works_id_list F.fid)) = _
  rw [anonymize_contacts_ok _ (fakeEmail F) F.phone F.mobile hEm1 hPh1 hMo1]
  show Except.ok (anonymize_id _ works_id_list F.fid) = _
  rw [anonymize_id_works_ok]
  rfl

theorem strOpt_map_str (o : Option JValue) (s : String) :
    strOpt (o.map (fun _ => JValue.str s)) = true := by
  cases o <;> rfl

theorem recGet_cleanWork_other (F : FakeIdentity) (r : Record) (k : String)
    (h1 : k ≠ "Owner") (h2 : k ≠ "Email") (h3 : k ≠ "Phone") (h4 : k ≠ "Mobile")
    (h5 : k ≠ "ExpertId") :
    recGet (cleanWork F r) k = recGet (remove_data r) k := by
  unfold cleanWork
  rw [recGet_setIfPresent_ne _ "ExpertId" k _ (Ne.symm h5),
    recGet_setIfPresent_ne _ "Mobile" k _ (Ne.symm h4),
    recGet_setIfPresent_ne _ "Phone" k _ (Ne.symm h3),
    recGet_setIfPresent_ne _ "Email" k _ (Ne.symm h2),
    recGet_setIfPresent_ne _ "Owner" k _ (Ne.symm h1)]

theorem recGet_cleanWork_rid (F : FakeIdentity) (r : Record) :
    recGet (cleanWork F r) "ExpertId" = (recGet r "ExpertId").map (fun _ => .num F.fid) := by
  unfold cleanWork
  rw [recGet_setIfPresent_self,
    recGet_setIfPresent_ne _ "Mobile" "ExpertId" _ (by decide),
    recGet_setIfPresent_ne _ "Phone" "ExpertId" _ (by decide),
    recGet_setIfPresent_ne _ "Email" "ExpertId" _ (by decide),
    recGet_setIfPresent_ne _ "Owner" "ExpertId" _ (by decide),
    recGet_remove_data_keep r "ExpertId" (by decide)]

theorem recHas_cleanWork_rid (F : FakeIdentity) (r : Record) :
    recHas (cleanWork F r) "ExpertId" = recHas r "ExpertId" := by
  unfold recHas
  rw [recGet_cleanWork_rid]
  cases recGet r "ExpertId" <;> rfl

theorem ridOf_cleanWork (F : FakeIdentity) (r : Record) (h : recHas r "ExpertId" = true) :
    ridOf (cleanWork F r) = .num F.fid := by
  obtain ⟨v, hv⟩ := Option.isSome_iff_exists.mp h
  unfold ridOf
  rw [recGet_cleanWork_rid, hv]
  rfl

theorem goodWork_cleanWork (F : FakeIdentity) (r : Record) :
    goodWork (cleanWork F r) = true := by
  unfold goodWork cleanWork
  rw [recGet_setIfPresent_ne _ "ExpertId" "Owner" _ (by decide),
    recGet_setIfPresent_ne _ "Mobile" "Owner" _ (by decide),
    recGet_setIfPresent_ne _ "Phone" "Owner" _ (by decide),
    recGet_setIfPresent_ne _ "Email" "Owner" _ (by decide),
    recGet_setIfPresent_self,
    recGet_setIfPresent_ne _ "ExpertId" "Email" _ (by decide),
    recGet_setIfPresent_ne _ "Mobile" "Email" _ (by decide),
    recGet_setIfPresent_ne _ "Phone" "Email" _ (by decide),
    recGet_setIfPresent_self,
    recGet_setIfPresent_ne _ "ExpertId" "Phone" _ (by decide),
    recGet_setIfPresent_ne _ "Mobile" "Phone" _ (by decide),
    recGet_setIfPresent_self,
    recGet_setIfPresent_ne _ "ExpertId" "Mobile" _ (by decide),
    recGet_setIfPresent_self]
  simp [strOpt_map_str]

theorem recHas_stepWork (F : FakeIdentity) (o : JValue) (r : Record) :
    recHas (stepWork F o r) "ExpertId" = recHas r "ExpertId" := by
  unfold stepWork
  split
  · exact recHas_cleanWork_rid F r
  · rfl

theorem goodWork_stepWork (F : FakeIdentity) (o : JValue) (r : Record)
    (h : goodWork r = true) : goodWork (stepWork F o r) = true := by
  unfold stepWork
  split
  · exact goodWork_cleanWork F r
  · exact h

theorem anonWorksPass_ok (origId : JValue) (F : FakeIdentity) (data : List Record)
    (hp : ∀ r ∈ data, recHas r "ExpertId" = true)
    (hg : ∀ r ∈ data, goodWork r = true) :
    anonWorksPass origId F data = .ok (data.map (stepWork F origId)) := by
  induction data with
  | nil => rfl
  | cons r rest ih =>
      have hpr := hp r (List.mem_cons_self r rest)
      obtain ⟨v, hv⟩ := Option.isSome_iff_exists.mp hpr
      have hrid : ridOf r = v := by unfold ridOf; rw [hv]; rfl
      have hidx : pyIndex r "ExpertId" = .ok v := by unfold pyIndex; rw [hv]
      show (do
          let rid ← pyIndex r "ExpertId"
          let r' ← if pyEq origId rid then processMatchedRecord F r else pure r
          let rest' ← anonWorksPass origId F rest
          return r' :: rest') = _
      rw [hidx]
      show (do
          let r' ← if pyEq origId v then processMatchedRecord F r else pure r
          let rest' ← anonWorksPass origId F rest
          return r' :: rest') = _
      rw [ih (fun x hx => hp x (List.mem_cons_of_mem _ hx))
          (fun x hx => hg x (List.mem_cons_of_mem _ hx))]
      cases hc : pyEq origId v with
      | true =>
          rw [if_pos rfl]
          rw [processMatchedRecord_ok F r (hg r (List.mem_cons_self r rest))]
          show Except.ok (cleanWork F r :: rest.map (stepWork F origId)) = _
          rw [List.map_cons]
          unfold stepWork
          rw [hrid, hc, if_pos rfl]
      | false =>
          rw [if_neg Bool.false_ne_true]
          show Except.ok (r :: rest.map (stepWork F origId)) = _
          rw [List.map_cons]
          unfold stepWork
          rw [hrid, hc]
          rw [if_neg Bool.false_ne_true]

theorem processExpert_ok (F : FakeIdentity) (e : Record) (data : List Record)
    (hid : recHas e "Id" = true) (hge : goodExpert e = true)
    (hp : ∀ r ∈ data, recHas r "ExpertId" = true)
    (hg : ∀ r ∈ data, goodWork r = true) :
    processExpert F e data = .ok (cleanExpert F e, data.map (stepWork F (idOf e))) := by
  obtain ⟨v, hv⟩ := Option.isSome_iff_exists.mp hid
  have hvid : idOf e = v := by unfold idOf; rw [hv]; rfl
  have hidx : pyIndex e "Id" = .ok v := by unfold pyIndex; rw [hv]
  obtain ⟨hT, hF, hL, hE, hP, hM⟩ := goodExpert_fields hge
  have hT1 : strOpt (recGet (remove_data e) "Title") = true := by
    rw [recGet_remove_data_keep e "Title" (by decide)]; exact hT
  have hF1 : strOpt (recGet (remove_data e) "FirstName") = true := by
    rw [recGet_remove_data_keep e "FirstName" (by decide)]; exact hF
  have hL1 : strOpt (recGet (remove_data e) "LastName") = true := by
    rw [recGet_remove_data_keep e "LastName" (by decide)]; exact hL
  have hE3 : strOpt (recGet (setIfPresent (setIfPresent (setIfPresent (remove_data e)
      "Title" (.str (fakeFull F))) "FirstName" (.str F.firstName))
      "LastName" (.str F.lastName)) "Email") = true := by
    rw [recGet_setIfPresent_ne _ "LastName" "Email" _ (by decide),
      recGet_setIfPresent_ne _ "FirstName" "Email" _ (by decide),
      recGet_setIfPresent_ne _ "Title" "Email" _ (by decide),
      recGet_remove_data_keep e "Email" (by decide)]
    exact hE
  have hP3 : strOpt (recGet (setIfPresent (setIfPresent (setIfPresent (remove_data e)
      "Title" (.str (fakeFull F))) "FirstName" (.str F.firstName))
      "LastName" (.str F.lastName)) "Phone") = true := by
    rw [recGet_setIfPresent_ne _ "LastName" "Phone" _ (by decide),
      recGet_setIfPresent_ne _ "FirstName" "Phone" _ (by decide),
      recGet_setIfPresent_ne _ "Title" "Phone" _ (by decide),
      recGet_remove_data_keep e "Phone" (by decide)]
    exact hP
  have hM3 : strOpt (recGet (setIfPresent (setIfPresent (setIfPresent (remove_data e)
      "Title" (.str (fakeFull F))) "FirstName" (.str F.firstName))
      "LastName" (.str F.lastName)) "Mobile") = true := by
    rw [recGet_setIfPresent_ne _ "LastName" "Mobile" _ (by decide),
      recGet_setIfPresent_ne _ "FirstName" "Mobile" _ (by decide),
      recGet_setIfPresent_ne _ "Title" "Mobile" _ (by decide),
      recGet_remove_data_keep e "Mobile" (by decide)]
    exact hM
  unfold processExpert
  rw [hidx]
  show (do
      let data' ← anonWorksPass v F data
      let e2 ← anonymize_name (remove_data e) name_list F.firstName F.lastName (fakeFull F)
      let e3 ← anonymize_contacts e2 contact_list (fakeEmail F) F.phone F.mobile
      return (anonymize_id e3 id_list F.fid, data')) = _
  rw [anonWorksPass_ok v F data hp hg]
  show (do
      let e2 ← anonymize_name (remove_data e) name_list F.firstName F.lastName (fakeFull F)
      let e3 ← anonymize_contacts e2 contact_list (fakeEmail F) F.phone F.mobile
      return (anonymize_id e3 id_list F.fid, data.map (stepWork F v))) = _
  rw [anonymize_name_name_list_ok (remove_data e) F.firstName F.lastName (fakeFull F)
    hT1 hF1 hL1]
  show (do
      let e3 ← anonymize_contacts (setIfPresent (setIfPresent (setIfPresent (remove_data e)
          "Title" (.str (fakeFull F))) "FirstName" (.str F.firstName))
          "LastName" (.str F.lastName)) contact_list (fakeEmail F) F.phone F.mobile
      return (anonymize_id e3 id_list F.fid, data.map (stepWork F v))) = _
  rw [anonymize_contacts_ok _ (fakeEmail F) F.phone F.mobile hE3 hP3 hM3]
  show Except.ok (anonymize_id _ id_list F.fid, data.map (stepWork F v)) = _
  rw [anonymize_id_id_ok, hvid]
  rfl

set_option maxHeartbeats 1000000 in
theorem anonymizeLoop_ok (fakes : Nat → FakeIdentity) (experts : List Record) :
    ∀ (i : Nat) (data : List Record),
    (∀ e ∈ experts, recHas e "Id" = true) → (∀ e ∈ experts, goodExpert e = true) →
    (∀ r ∈ data, recHas r "ExpertId" = true) → (∀ r ∈ data, goodWork r = true) →
    anonymizeLoop fakes i experts data =
      .ok (cleanExperts fakes i experts, data.map (applyExperts fakes i experts)) := by
  induction experts with
  | nil =>
      intro i data _ _ _ _
      show Except.ok (([] : List Record), data) = _
      simp [cleanExperts, applyExperts]
  | cons e es ih =>
      intro i data he1 he2 hd1 hd2
      have hpe := processExpert_ok (fakes i) e data
        (he1 e (List.mem_cons_self e es)) (he2 e (List.mem_cons_self e es)) hd1 hd2
      show (do
          let p ← processExpert (fakes i) e data
          let q ← anonymizeLoop fakes (i + 1) es p.2
          return (p.1 :: q.1, q.2)) = _
      rw [hpe]
      show (do
          let q ← anonymizeLoop fakes (i + 1) es
            (data.map (stepWork (fakes i) (idOf e)))
          return (cleanExpert (fakes i) e :: q.1, q.2)) = _
      rw [ih (i + 1) (data.map (stepWork (fakes i) (idOf e)))
        (fun x hx => he1 x (List.mem_cons_of_mem _ hx))
        (fun x hx => he2 x (List.mem_cons_of_mem _ hx))
        (by
          intro x hx
          obtain ⟨r0, hr0, rfl⟩ := List.mem_map.mp hx
          rw [recHas_stepWork]
          exact hd1 r0 hr0)
        (by
          intro x hx
          obtain ⟨r0, hr0, rfl⟩ := List.mem_map.mp hx
          exact goodWork_stepWork _ _ r0 (hd2 r0 hr0))]
      show Except.ok (cleanExpert (fakes i) e :: cleanExperts fakes (i + 1) es,
          (data.map (stepWork (fakes i) (idOf e))).map (applyExperts fakes (i + 1) es)) = _
      rw [List.map_map]
      rfl

theorem anonymize_data_ok (expert_data data : List Record) (fakes : Nat → FakeIdentity)
    (he1 : ∀ e ∈ expert_data, recHas e "Id" = true)
    (he2 : ∀ e ∈ expert_data, goodExpert e = true)
    (hd1 : ∀ r ∈ data, recHas r "ExpertId" = true)
    (hd2 : ∀ r ∈ data, goodWork r = true) :
    anonymize_data expert_data data fakes =
      .ok (cleanExperts fakes 0 expert_data, data.map (applyExperts fakes 0 expert_data)) :=
  anonymizeLoop_ok fakes expert_data 0 data he1 he2 hd1 hd2

theorem recGet_cleanExpert_other (F : FakeIdentity) (e : Record) (k : String)
    (h1 : k ≠ "Title") (h2 : k ≠ "FirstName") (h3 : k ≠ "LastName") (h4 : k ≠ "Email")
    (h5 : k ≠ "Phone") (h6 : k ≠ "Mobile") (h7 : k ≠ "Id") :
    recGet (cleanExpert F e) k = recGet (remove_data e) k := by
  unfold cleanExpert
  rw [recGet_setIfPresent_ne _ "Id" k _ (Ne.symm h7),
    recGet_setIfPresent_ne _ "Mobile" k _ (Ne.symm h6),
    recGet_setIfPresent_ne _ "Phone" k _ (Ne.symm h5),
    recGet_setIfPresent_ne _ "Email" k _ (Ne.symm h4),
    recGet_setIfPresent_ne _ "LastName" k _ (Ne.symm h3),
    recGet_setIfPresent_ne _ "FirstName" k _ (Ne.symm h2),
    recGet_setIfPresent_ne _ "Title" k _ (Ne.symm h1)]

theorem recGet_cleanExpert_id (F : FakeIdentity) (e : Record) :
    recGet (cleanExpert F e) "Id" = (recGet e "Id").map (fun _ => .num F.fid) := by
  unfold cleanExpert
  rw [recGet_setIfPresent_self,
    recGet_setIfPresent_ne _ "Mobile" "Id" _ (by decide),
    recGet_setIfPresent_ne _ "Phone" "Id" _ (by decide),
    recGet_setIfPresent_ne _ "Email" "Id" _ (by decide),
    recGet_setIfPresent_ne _ "LastName" "Id" _ (by decide),
    recGet_setIfPresent_ne _ "FirstName" "Id" _ (by decide),
    recGet_setIfPresent_ne _ "Title" "Id" _ (by decide),
    recGet_remove_data_keep e "Id" (by decide)]

theorem cleanExpert_removes (F : FakeIdentity) (e : Record) (k : String)
    (hk : k ∈ remove_list) : recGet (cleanExpert F e) k = none := by
  have hne : ∀ s : String, s ∉ remove_list → k ≠ s := fun s hs heq => hs (heq ▸ hk)
  rw [recGet_cleanExpert_other F e k (hne _ (by decide)) (hne _ (by decide))
    (hne _ (by decide)) (hne _ (by decide)) (hne _ (by decide)) (hne _ (by decide))
    (hne _ (by decide))]
  rw [recGet_remove_data, if_pos hk]

theorem cleanWork_removes (F : FakeIdentity) (r : Record) (k : String)
    (hk : k ∈ remove_list) : recGet (cleanWork F r) k = none := by
  have hne : ∀ s : String, s ∉ remove_list → k ≠ s := fun s hs heq => hs (heq ▸ hk)
  rw [recGet_cleanWork_other F r k (hne _ (by decide)) (hne _ (by decide))
    (hne _ (by decide)) (hne _ (by decide)) (hne _ (by decide))]
  rw [recGet_remove_data, if_pos hk]

theorem applyExperts_no_match (fakes : Nat → FakeIdentity) (experts : List Record) :
    ∀ (i : Nat) (r : Record), (∀ e ∈ experts, pyEq (idOf e) (ridOf r) = false) →
    applyExperts fakes i experts r = r := by
  induction experts with
  | nil => intro i r _; rfl
  | cons e es ih =>
      intro i r h
      show applyExperts fakes (i + 1) es (stepWork (fakes i) (idOf e) r) = r
      unfold stepWork
      rw [h e (List.mem_cons_self e es), if_neg Bool.false_ne_true]
      exact ih (i + 1) r (fun x hx => h x (List.mem_cons_of_mem _ hx))

theorem applyExperts_cleaned (fakes : Nat → FakeIdentity) (experts : List Record)
    (i : Nat) (F : FakeIdentity) (r : Record) (hr : recHas r "ExpertId" = true)
    (h5 : ∀ e ∈ experts, pyEq (idOf e) (.num F.fid) = false) :
    applyExperts fakes i experts (cleanWork F r) = cleanWork F r := by
  apply applyExperts_no_match
  intro e he
  rw [ridOf_cleanWork F r hr]
  exact h5 e he

theorem applyExperts_firstMatch (fakes : Nat → FakeIdentity) (experts : List Record)
    (h5 : ∀ e ∈ experts, ∀ j : Nat, pyEq (idOf e) (.num (fakes j).fid) = false) :
    ∀ (i : Nat) (r : Record), recHas r "ExpertId" = true →
    applyExperts fakes i experts r =
      (match firstMatch experts (ridOf r) with
        | some j => cleanWork (fakes (i + j)) r
        | none => r) := by
  induction experts with
  | nil => intro i r _; rfl
  | cons e es ih =>
      intro i r hr
      show applyExperts fakes (i + 1) es (stepWork (fakes i) (idOf e) r) = _
      unfold stepWork firstMatch
      cases hc : pyEq (idOf e) (ridOf r) with
      | true =>
          rw [if_pos rfl]
          rw [applyExperts_cleaned fakes es (i + 1) (fakes i) r hr
            (fun x hx => h5 x (List.mem_cons_of_mem _ hx) i)]
          simp
      | false =>
          rw [if_neg Bool.false_ne_true]
          rw [ih (fun x hx => h5 x (List.mem_cons_of_mem _ hx)) (i + 1) r hr]
          cases hm : firstMatch es (ridOf r) with
          | some j =>
              have harith : i + 1 + j = i + (j + 1) := by omega
              simp [harith]
          | none => simp

theorem map_congr_mem {α β : Type} (l : List α) (f g : α → β)
    (h : ∀ a ∈ l, f a = g a) : l.map f = l.map g := by
  induction l with
  | nil => rfl
  | cons a rest ih =>
      rw [List.map_cons, List.map_cons, h a (List.mem_cons_self a rest),
        ih (fun x hx => h x (List.mem_cons_of_mem _ hx))]

theorem cleanExperts_length (fakes : Nat → FakeIdentity) (experts : List Record) :
    ∀ i, (cleanExperts fakes i experts).length = experts.length := by
  induction experts with
  | nil => intro i; rfl
  | cons e es ih => intro i; simp [cleanExperts, ih (i + 1)]

theorem cleanExperts_get (fakes : Nat → FakeIdentity) (experts : List Record) :
    ∀ (i j : Nat) (hj : j < experts.length),
    (cleanExperts fakes i experts).get
        ⟨j, by rw [cleanExperts_length]; exact hj⟩ =
      cleanExpert (fakes (i + j)) (experts.get ⟨j, hj⟩) := by
  induction experts with
  | nil => intro i j hj; exact absurd hj (by simp)
  | cons e es ih =>
      intro i j hj
      cases j with
      | zero => simp [cleanExperts]
      | succ j' =>
          have hj' : j' < es.length := by simpa using hj
          show (cleanExperts fakes (i + 1) es).get ⟨j', _⟩ = _
          rw [ih (i + 1) j' hj']
          have harith : i + 1 + j' = i + (j' + 1) := by omega
          rw [harith]
          rfl

theorem applyExperts_keeps_removed (fakes : Nat → FakeIdentity) (experts : List Record) :
    ∀ (i : Nat) (r : Record), (∀ k ∈ remove_list, recGet r k = none) →
    ∀ k ∈ remove_list, recGet (applyExperts fakes i experts r) k = none := by
  induction experts with
  | nil => intro i r hr k hk; exact hr k hk
  | cons e es ih =>
      intro i r hr k hk
      show recGet (applyExperts fakes (i + 1) es (stepWork (fakes i) (idOf e) r)) k = none
      apply ih (i + 1)
      · intro k' hk'
        unfold stepWork
        split
        · exact cleanWork_removes _ _ k' hk'
        · exact hr k' hk'
      · exact hk

theorem applyExperts_removes (fakes : Nat → FakeIdentity) (experts : List Record) :
    ∀ (i : Nat) (r : Record), (∃ e ∈ experts, pyEq (idOf e) (ridOf r) = true) →
    ∀ k ∈ remove_list, recGet (applyExperts fakes i experts r) k = none := by
  induction experts with
  | nil =>
      intro i r hex k hk
      obtain ⟨e, he, _⟩ := hex
      exact absurd he (List.not_mem_nil e)
  | cons e es ih =>
      intro i r hex k hk
      show recGet (applyExperts fakes (i + 1) es (stepWork (fakes i) (idOf e) r)) k = none
      cases hc : pyEq (idOf e) (ridOf r) with
      | true =>
          unfold stepWork
          rw [hc, if_pos rfl]
          exact applyExperts_keeps_removed fakes es (i + 1) (cleanWork (fakes i) r)
            (fun k' hk' => cleanWork_removes _ _ k' hk') k hk
      | false =>
          unfold stepWork
          rw [hc, if_neg Bool.false_ne_true]
          obtain ⟨e', he', hpe'⟩ := hex
          rcases List.mem_cons.mp he' with rfl | he'
          · rw [hc] at hpe'; exact Bool.noConfusion hpe'
          · exact ih (i + 1) r ⟨e', he', hpe'⟩ k hk

/-- C3 (amended): after a successful `anonymize_data` run, none of the
`remove_list` field names appears in any record written to
experts_cleaned.json, nor in any works/outputs record whose `ExpertId`
matched some expert; but a works/outputs record whose `ExpertId` matches
no expert is written to works_cleaned.json entirely unchanged, so it may
retain `remove_list` fields. -/
theorem c3_remove_list_fields (expert_data data : List Record) (fakes : Nat → FakeIdentity)
    (he1 : ∀ e ∈ expert_data, recHas e "Id" = true)
    (he2 : ∀ e ∈ expert_data, goodExpert e = true)
    (hd1 : ∀ r ∈ data, recHas r "ExpertId" = true)
    (hd2 : ∀ r ∈ data, goodWork r = true) :
    anonymize_data expert_data data fakes =
      .ok (cleanExperts fakes 0 expert_data, data.map (applyExperts fakes 0 expert_data)) ∧
    (∀ e' ∈ cleanExperts fakes 0 expert_data, ∀ k ∈ remove_list, recGet e' k = none) ∧
    (∀ r ∈ data, (∃ e ∈ expert_data, pyEq (idOf e) (ridOf r) = true) →
      ∀ k ∈ remove_list, recGet (applyExperts fakes 0 expert_data r) k = none) ∧
    (∀ r ∈ data, (∀ e ∈ expert_data, pyEq (idOf e) (ridOf r) = false) →
      applyExperts fakes 0 expert_data r = r) := by
  refine ⟨anonymize_data_ok expert_data data fakes he1 he2 hd1 hd2, ?_, ?_, ?_⟩
  · intro e' he' k hk
    revert he'
    suffices h : ∀ i, ∀ e' ∈ cleanExperts fakes i expert_data, recGet e' k = none from
      fun he' => h 0 e' he'
    induction expert_data with
    | nil => intro i e' he'; exact absurd he' (List.not_mem_nil e')
    | cons e es ih =>
        intro i e' he'
        rcases List.mem_cons.mp he' with rfl | h2
        · exact cleanExpert_removes _ _ k hk
        · exact ih (fun x hx => he1 x (List.mem_cons_of_mem _ hx))
            (fun x hx => he2 x (List.mem_cons_of_mem _ hx)) (i + 1) e' h2
  · intro r _ hex k hk
    exact applyExperts_removes fakes expert_data 0 r hex k hk
  · intro r _ hno
    exact applyExperts_no_match fakes expert_data 0 r hno

/-- Witness for C3: a matched work loses its `ClickURL` and the expert
loses its `Photo`; both ids are rewritten to the synthetic id. -/
theorem c3_remove_list_fields_witness :
    anonymize_data [[("Id", JValue.str "e1"), ("Photo", JValue.str "p")]]
        [[("ExpertId", JValue.str "e1"), ("ClickURL", JValue.str "u")]]
        (fun _ => ⟨111111, "A", "B", "ph", "mo"⟩) =
      .ok ([[("Id", JValue.num 111111)]], [[("ExpertId", JValue.num 111111)]]) := by
  have h := c3_remove_list_fields [[("Id", JValue.str "e1"), ("Photo", JValue.str "p")]]
      [[("ExpertId", JValue.str "e1"), ("ClickURL", JValue.str "u")]]
      (fun _ => ⟨111111, "A", "B", "ph", "mo"⟩)
      (by
        intro e he
        rcases List.mem_cons.mp he with rfl | he
        · rfl
        · exact absurd he (List.not_mem_nil e))
      (by
        intro e he
        rcases List.mem_cons.mp he with rfl | he
        · rfl
        · exact absurd he (List.not_mem_nil e))
      (by
        intro r hr
        rcases List.mem_cons.mp hr with rfl | hr
        · rfl
        · exact absurd hr (List.not_mem_nil r))
      (by
        intro r hr
        rcases List.mem_cons.mp hr with rfl | hr
        · rfl
        · exact absurd hr (List.not_mem_nil r))
  exact h.1.trans rfl

/-- C3 counterexample: claim C3 states that no `remove_list` field appears
in any record written to works_cleaned.json, including works whose
`ExpertId` matched no expert; but an unmatched work is written out
untouched and keeps its `Photo` field. -/
theorem c3_counterexample :
    anonymize_data [[("Id", JValue.num 1)]]
        [[("ExpertId", JValue.num 2), ("Photo", JValue.str "blob")]]
        (fun _ => ⟨111111, "A", "B", "ph", "mo"⟩) =
      .ok ([[("Id", JValue.num 111111)]],
           [[("ExpertId", JValue.num 2), ("Photo", JValue.str "blob")]]) ∧
    recGet [("ExpertId", JValue.num 2), ("Photo", JValue.str "blob")] "Photo" =
      some (JValue.str "blob") ∧
    "Photo" ∈ remove_list :=
  ⟨rfl, rfl, by decide⟩

/-- C5 (amended): in a successful run in which no synthetic id collides
with any expert's original id, the i-th expert record receives the
synthetic identity `fakes i` (`Id`, `Title`, `FirstName`, `LastName`,
`Email`, `Phone`, `Mobile` overwritten wherever present with that one
identity), and every works/outputs record receives, via `cleanWork`, the
synthetic identity of the *first* expert whose original `Id` equals the
record's `ExpertId` (`ExpertId`, `Owner` and contact fields overwritten
wherever present) — so an expert and all its matched works share one
synthetic identity; a record matching no expert is left completely
unchanged and retains its original values. -/
theorem c5_shared_synthetic_identity (expert_data data : List Record)
    (fakes : Nat → FakeIdentity)
    (he1 : ∀ e ∈ expert_data, recHas e "Id" = true)
    (he2 : ∀ e ∈ expert_data, goodExpert e = true)
    (hd1 : ∀ r ∈ data, recHas r "ExpertId" = true)
    (hd2 : ∀ r ∈ data, goodWork r = true)
    (h5 : ∀ e ∈ expert_data, ∀ j : Nat, pyEq (idOf e) (.num (fakes j).fid) = false) :
    anonymize_data expert_data data fakes =
      .ok (cleanExperts fakes 0 expert_data,
        data.map (fun r =>
          match firstMatch expert_data (ridOf r) with
          | some j => cleanWork (fakes j) r
          | none => r)) ∧
    (∀ (j : Nat) (hj : j < expert_data.length),
      (cleanExperts fakes 0 expert_data).get
          ⟨j, by rw [cleanExperts_length]; exact hj⟩ =
        cleanExpert (fakes j) (expert_data.get ⟨j, hj⟩)) := by
  constructor
  · have hmap : data.map (applyExperts fakes 0 expert_data) =
        data.map (fun r =>
          match firstMatch expert_data (ridOf r) with
          | some j => cleanWork (fakes j) r
          | none => r) := by
      apply map_congr_mem
      intro r hr
      rw [applyExperts_firstMatch fakes expert_data h5 0 r (hd1 r hr)]
      cases hm : firstMatch expert_data (ridOf r) with
      | some j => simp
      | none => rfl
    rw [anonymize_data_ok expert_data data fakes he1 he2 hd1 hd2, hmap]
  · intro j hj
    have h := cleanExperts_get fakes expert_data 0 j hj
    simpa using h

/-- Witness for C5: the expert and its matched work both receive the
identity `(222222, Ann Lee, ann.lee@roche.com, ...)`. -/
theorem c5_shared_synthetic_identity_witness :
    anonymize_data [[("Id", JValue.str "e1"), ("Email", JValue.str "orig@roche.com")]]
        [[("ExpertId", JValue.str "e1"), ("Owner", JValue.str "Orig名 Name")]]
        (fun _ => ⟨222222, "Ann", "Lee", "ph", "mo"⟩) =
      .ok ([[("Id", JValue.num 222222), ("Email", JValue.str "ann.lee@roche.com")]],
           [[("ExpertId", JValue.num 222222), ("Owner", JValue.str "Ann Lee")]]) := by
  have h := c5_shared_synthetic_identity
      [[("Id", JValue.str "e1"), ("Email", JValue.str "orig@roche.com")]]
      [[("ExpertId", JValue.str "e1"), ("Owner", JValue.str "Orig名 Name")]]
      (fun _ => ⟨222222, "Ann", "Lee", "ph", "mo"⟩)
      (by
        intro e he
        rcases List.mem_cons.mp he with rfl | he
        · rfl
        · exact absurd he (List.not_mem_nil e))
      (by
        intro e he
        rcases List.mem_cons.mp he with rfl | he
        · rfl
        · exact absurd he (List.not_mem_nil e))
      (by
        intro r hr
        rcases List.mem_cons.mp hr with rfl | hr
        · rfl
        · exact absurd hr (List.not_mem_nil r))
      (by
        intro r hr
        rcases List.mem_cons.mp hr with rfl | hr
        · rfl
        · exact absurd hr (List.not_mem_nil r))
      (by
        intro e he j
        rcases List.mem_cons.mp he with rfl | he
        · rfl
        · exact absurd he (List.not_mem_nil e))
  exact h.1.trans rfl

/-- C5 counterexample: claim C5 states that no output record retains the
original values of the identity fields; but a works record whose
`ExpertId` matches no expert is written to works_cleaned.json with its
original `Email` intact. -/
theorem c5_counterexample :
    anonymize_data [[("Id", JValue.num 1)]]
        [[("ExpertId", JValue.num 2), ("Email", JValue.str "real.name@roche.com")]]
        (fun _ => ⟨111111, "A", "B", "ph", "mo"⟩) =
      .ok ([[("Id", JValue.num 111111)]],
           [[("ExpertId", JValue.num 2), ("Email", JValue.str "real.name@roche.com")]]) :=
  rfl

theorem firstMatch_some_spec (rid : JValue) (experts : List Record) :
    ∀ (j : Nat), firstMatch experts rid = some j →
    ∃ hj : j < experts.length, pyEq (idOf (experts.get ⟨j, hj⟩)) rid = true := by
  induction experts with
  | nil => intro j h; exact absurd h (by simp [firstMatch])
  | cons e es ih =>
      intro j h
      unfold firstMatch at h
      cases hc : pyEq (idOf e) rid with
      | true =>
          rw [hc, if_pos rfl] at h
          cases h
          exact ⟨by simp, hc⟩
      | false =>
          rw [hc, if_neg Bool.false_ne_true] at h
          cases hm : firstMatch es rid with
          | none => rw [hm] at h; exact absurd h (by simp)
          | some j' =>
              rw [hm] at h
              simp only [Option.map_some'] at h
              cases h
              obtain ⟨hj', hp⟩ := ih j' hm
              exact ⟨by simpa using hj', hp⟩

theorem firstMatch_none_spec (rid : JValue) (experts : List Record) :
    firstMatch experts rid = none → ∀ e ∈ experts, pyEq (idOf e) rid = false := by
  induction experts with
  | nil => intro _ e he; exact absurd he (List.not_mem_nil e)
  | cons e es ih =>
      intro h e' he'
      unfold firstMatch at h
      cases hc : pyEq (idOf e) rid with
      | true => rw [hc, if_pos rfl] at h; exact Option.noConfusion h
      | false =>
          rw [hc, if_neg Bool.false_ne_true] at h
          rcases List.mem_cons.mp he' with rfl | he'
          · exact hc
          · cases hm : firstMatch es rid with
            | some j => rw [hm] at h; simp at h
            | none => exact ih hm e' he'

theorem anonymize_data_firstMatch (expert_data data : List Record)
    (fakes : Nat → FakeIdentity)
    (he1 : ∀ e ∈ expert_data, recHas e "Id" = true)
    (he2 : ∀ e ∈ expert_data, goodExpert e = true)
    (hd1 : ∀ r ∈ data, recHas r "ExpertId" = true)
    (hd2 : ∀ r ∈ data, goodWork r = true)
    (h5 : ∀ e ∈ expert_data, ∀ j : Nat, pyEq (idOf e) (.num (fakes j).fid) = false) :
    anonymize_data expert_data data fakes =
      .ok (cleanExperts fakes 0 expert_data,
        data.map (fun r =>
          match firstMatch expert_data (ridOf r) with
          | some j => cleanWork (fakes j) r
          | none => r)) := by
  have hmap : data.map (applyExperts fakes 0 expert_data) =
      data.map (fun r =>
        match firstMatch expert_data (ridOf r) with
        | some j => cleanWork (fakes j) r
        | none => r) := by
    apply map_congr_mem
    intro r hr
    rw [applyExperts_firstMatch fakes expert_data h5 0 r (hd1 r hr)]
    cases hm : firstMatch expert_data (ridOf r) with
    | some j => simp
    | none => rfl
  rw [anonymize_data_ok expert_data data fakes he1 he2 hd1 hd2, hmap]

/-- C4 (amended): when every record's `ExpertId` matches some expert,
every expert has at least one matching record, original expert ids are
pairwise distinct, and no synthetic id collides with an original id, the
set of `ExpertId` values in the works output equals the set of `Id`
values in the experts output (both are the set of synthetic ids).
Without those hypotheses the claim fails (see the counterexample). -/
theorem c4_linkage_preservation (expert_data data : List Record)
    (fakes : Nat → FakeIdentity)
    (he1 : ∀ e ∈ expert_data, recHas e "Id" = true)
    (he2 : ∀ e ∈ expert_data, goodExpert e = true)
    (hd1 : ∀ r ∈ data, recHas r "ExpertId" = true)
    (hd2 : ∀ r ∈ data, goodWork r = true)
    (h5 : ∀ e ∈ expert_data, ∀ j : Nat, pyEq (idOf e) (.num (fakes j).fid) = false)
    (h6 : ∀ (j1 j2 : Nat) (hj1 : j1 < expert_data.length) (hj2 : j2 < expert_data.length),
      pyEq (idOf (expert_data.get ⟨j1, hj1⟩)) (idOf (expert_data.get ⟨j2, hj2⟩)) = true →
      j1 = j2)
    (h7 : ∀ r ∈ data, ∃ e ∈ expert_data, pyEq (idOf e) (ridOf r) = true)
    (h8 : ∀ (j : Nat) (hj : j < expert_data.length),
      ∃ r ∈ data, pyEq (idOf (expert_data.get ⟨j, hj⟩)) (ridOf r) = true) :
    anonymize_data expert_data data fakes =
      .ok (cleanExperts fakes 0 expert_data,
        data.map (fun r =>
          match firstMatch expert_data (ridOf r) with
          | some j => cleanWork (fakes j) r
          | none => r)) ∧
    ∀ v : JValue,
      (∃ w ∈ data.map (fun r =>
          match firstMatch expert_data (ridOf r) with
          | some j => cleanWork (fakes j) r
          | none => r), recGet w "ExpertId" = some v) ↔
      (∃ e ∈ cleanExperts fakes 0 expert_data, recGet e "Id" = some v) := by
  refine ⟨anonymize_data_firstMatch expert_data data fakes he1 he2 hd1 hd2 h5, ?_⟩
  intro v
  constructor
  · rintro ⟨w, hw, hval⟩
    obtain ⟨r, hr, rfl⟩ := List.mem_map.mp hw
    cases hfm : firstMatch expert_data (ridOf r) with
    | none =>
        obtain ⟨e0, he0, hm0⟩ := h7 r hr
        rw [firstMatch_none_spec (ridOf r) expert_data hfm e0 he0] at hm0
        exact Bool.noConfusion hm0
    | some j =>
        rw [hfm] at hval
        rw [recGet_cleanWork_rid] at hval
        obtain ⟨u, hu⟩ := Option.isSome_iff_exists.mp (hd1 r hr)
        rw [hu] at hval
        simp only [Option.map_some'] at hval
        obtain ⟨hjlt, _⟩ := firstMatch_some_spec (ridOf r) expert_data j hfm
        refine ⟨cleanExpert (fakes (0 + j)) (expert_data.get ⟨j, hjlt⟩), ?_, ?_⟩
        · exact cleanExperts_get fakes expert_data 0 j hjlt ▸ List.get_mem _ _ _
        · rw [recGet_cleanExpert_id]
          obtain ⟨u2, hu2⟩ := Option.isSome_iff_exists.mp
            (he1 (expert_data.get ⟨j, hjlt⟩) (List.get_mem _ _ _))
          rw [hu2]
          simp only [Option.map_some', Nat.zero_add]
          exact hval
  · rintro ⟨e', he', hval⟩
    obtain ⟨⟨j, hjlen⟩, hget⟩ := List.mem_iff_get.mp he'
    have hjE : j < expert_data.length := by
      rw [cleanExperts_length] at hjlen
      exact hjlen
    have hclean : e' = cleanExpert (fakes (0 + j)) (expert_data.get ⟨j, hjE⟩) := by
      rw [← hget]
      exact cleanExperts_get fakes expert_data 0 j hjE
    rw [hclean, recGet_cleanExpert_id] at hval
    obtain ⟨u2, hu2⟩ := Option.isSome_iff_exists.mp
      (he1 (expert_data.get ⟨j, hjE⟩) (List.get_mem _ _ _))
    rw [hu2] at hval
    simp only [Option.map_some', Nat.zero_add] at hval
    obtain ⟨r, hr, hmr⟩ := h8 j hjE
    have hfmex : ∃ j0, firstMatch expert_data (ridOf r) = some j0 := by
      cases hfm : firstMatch expert_data (ridOf r) with
      | none =>
          rw [firstMatch_none_spec (ridOf r) expert_data hfm (expert_data.get ⟨j, hjE⟩)
            (List.get_mem _ _ _)] at hmr
          exact Bool.noConfusion hmr
      | some j0 => exact ⟨j0, rfl⟩
    obtain ⟨j0, hfm⟩ := hfmex
    obtain ⟨hj0lt, hp0⟩ := firstMatch_some_spec (ridOf r) expert_data j0 hfm
    have hjj : j0 = j := h6 j0 j hj0lt hjE (pyEq_trans hp0 (pyEq_symm hmr))
    subst hjj
    refine ⟨cleanWork (fakes j0) r, List.mem_map.mpr ⟨r, hr, by rw [hfm]⟩, ?_⟩
    rw [recGet_cleanWork_rid]
    obtain ⟨u, hu⟩ := Option.isSome_iff_exists.mp (hd1 r hr)
    rw [hu]
    simp only [Option.map_some']
    exact hval

/-- Witness for C4: one expert (`Id` the string `e1`) and one matching
work; the synthetic id 111111 appears on both sides of the linkage. -/
theorem c4_linkage_preservation_witness :
    ∃ e ∈ cleanExperts (fun _ => (⟨111111, "A", "B", "ph", "mo"⟩ : FakeIdentity)) 0
      [[("Id", JValue.str "e1")]], recGet e "Id" = some (JValue.num 111111) := by
  have h := c4_linkage_preservation [[("Id", JValue.str "e1")]]
      [[("ExpertId", JValue.str "e1")]]
      (fun _ => (⟨111111, "A", "B", "ph", "mo"⟩ : FakeIdentity))
      (by
        intro e he
        rcases List.mem_cons.mp he with rfl | he
        · rfl
        · exact absurd he (List.not_mem_nil e))
      (by
        intro e he
        rcases List.mem_cons.mp he with rfl | he
        · rfl
        · exact absurd he (List.not_mem_nil e))
      (by
        intro r hr
        rcases List.mem_cons.mp hr with rfl | hr
        · rfl
        · exact absurd hr (List.not_mem_nil r))
      (by
        intro r hr
        rcases List.mem_cons.mp hr with rfl | hr
        · rfl
        · exact absurd hr (List.not_mem_nil r))
      (by
        intro e he j
        rcases List.mem_cons.mp he with rfl | he
        · rfl
        · exact absurd he (List.not_mem_nil e))
      (by
        intro j1 j2 hj1 hj2 _
        simp at hj1 hj2
        omega)
      (by
        intro r hr
        rcases List.mem_cons.mp hr with rfl | hr
        · exact ⟨[("Id", JValue.str "e1")], List.mem_cons_self _ _, rfl⟩
        · exact absurd hr (List.not_mem_nil r))
      (by
        intro j hj
        simp at hj
        subst hj
        exact ⟨[("ExpertId", JValue.str "e1")], List.mem_cons_self _ _, rfl⟩)
  exact (h.2 (JValue.num 111111)).mp
    ⟨[("ExpertId", JValue.num 111111)],
     show [("ExpertId", JValue.num 111111)] ∈ _ from List.mem_cons_self _ _, rfl⟩

/-- C4 counterexample: claim C4 asserts the set equality for every input
pair; with one expert and no works at all the experts output carries the
synthetic id 111111 while the works output is empty, so the two sets
differ. -/
theorem c4_counterexample :
    anonymize_data [[("Id", JValue.num 1)]] []
        (fun _ => (⟨111111, "A", "B", "ph", "mo"⟩ : FakeIdentity)) =
      .ok ([[("Id", JValue.num 111111)]], []) ∧
    ¬ ((∃ w ∈ ([] : List Record), recGet w "ExpertId" = some (JValue.num 111111)) ↔
       (∃ e ∈ [[("Id", JValue.num 111111)]], recGet e "Id" = some (JValue.num 111111))) := by
  refine ⟨rfl, ?_⟩
  intro hiff
  obtain ⟨w, hw, _⟩ := hiff.mpr ⟨[("Id", JValue.num 111111)], List.mem_cons_self _ _, rfl⟩
  exact absurd hw (List.not_mem_nil w)

theorem recGet_none_of_recHas_false {r : Record} {k : String} (h : recHas r k = false) :
    recGet r k = none := by
  cases hg : recGet r k with
  | none => rfl
  | some v => rw [recHas, hg] at h; exact Bool.noConfusion h

theorem anonWorksPass_keyError (origId : JValue) (F : FakeIdentity) (data : List Record)
    (hg : ∀ r ∈ data, goodWork r = true)
    (hex : ∃ r ∈ data, recHas r "ExpertId" = false) :
    anonWorksPass origId F data = .error .keyError := by
  induction data with
  | nil => obtain ⟨r, hr, _⟩ := hex; exact absurd hr (List.not_mem_nil r)
  | cons r rest ih =>
      cases hpr : recHas r "ExpertId" with
      | false =>
          have hidx : pyIndex r "ExpertId" = .error .keyError := by
            unfold pyIndex
            rw [recGet_none_of_recHas_false hpr]
          show (do
              let rid ← pyIndex r "ExpertId"
              let r' ← if pyEq origId rid then processMatchedRecord F r else pure r
              let rest' ← anonWorksPass origId F rest
              return r' :: rest') = _
          rw [hidx]
          rfl
      | true =>
          have hexr : ∃ x ∈ rest, recHas x "ExpertId" = false := by
            obtain ⟨x, hx, hxf⟩ := hex
            rcases List.mem_cons.mp hx with rfl | hx
            · rw [hpr] at hxf; exact Bool.noConfusion hxf
            · exact ⟨x, hx, hxf⟩
          obtain ⟨v, hv⟩ := Option.isSome_iff_exists.mp hpr
          have hidx : pyIndex r "ExpertId" = .ok v := by unfold pyIndex; rw [hv]
          show (do
              let rid ← pyIndex r "ExpertId"
              let r' ← if pyEq origId rid then processMatchedRecord F r else pure r
              let rest' ← anonWorksPass origId F rest
              return r' :: rest') = _
          rw [hidx]
          show (do
              let r' ← if pyEq origId v then processMatchedRecord F r else pure r
              let rest' ← anonWorksPass origId F rest
              return r' :: rest') = _
          rw [ih (fun x hx => hg x (List.mem_cons_of_mem _ hx)) hexr]
          cases hc : pyEq origId v with
          | true =>
              rw [if_pos rfl, processMatchedRecord_ok F r (hg r (List.mem_cons_self r rest))]
              rfl
          | false =>
              rw [if_neg Bool.false_ne_true]
              rfl

theorem processExpert_keyError_noId (F : FakeIdentity) (e : Record) (data : List Record)
    (h : recHas e "Id" = false) : processExpert F e data = .error .keyError := by
  have hidx : pyIndex e "Id" = .error .keyError := by
    unfold pyIndex
    rw [recGet_none_of_recHas_false h]
  unfold processExpert
  rw [hidx]
  rfl

theorem processExpert_keyError_data (F : FakeIdentity) (e : Record) (data : List Record)
    (hid : recHas e "Id" = true)
    (hg : ∀ r ∈ data, goodWork r = true)
    (hex : ∃ r ∈ data, recHas r "ExpertId" = false) :
    processExpert F e data = .error .keyError := by
  obtain ⟨v, hv⟩ := Option.isSome_iff_exists.mp hid
  have hidx : pyIndex e "Id" = .ok v := by unfold pyIndex; rw [hv]
  unfold processExpert
  rw [hidx]
  show (do
      let data' ← anonWorksPass v F data
      let e2 ← anonymize_name (remove_data e) name_list F.firstName F.lastName (fakeFull F)
      let e3 ← anonymize_contacts e2 contact_list (fakeEmail F) F.phone F.mobile
      return (anonymize_id e3 id_list F.fid, data')) = _
  rw [anonWorksPass_keyError v F data hg hex]
  rfl

set_option maxHeartbeats 1000000 in
theorem anonymizeLoop_keyError (fakes : Nat → FakeIdentity) (experts : List Record) :
    ∀ (i : Nat) (data : List Record), experts ≠ [] →
    (∀ e ∈ experts, goodExpert e = true) → (∀ r ∈ data, goodWork r = true) →
    ((∃ e ∈ experts, recHas e "Id" = false) ∨ (∃ r ∈ data, recHas r "ExpertId" = false)) →
    anonymizeLoop fakes i experts data = .error .keyError := by
  induction experts with
  | nil => intro i data hne _ _ _; exact absurd rfl hne
  | cons e es ih =>
      intro i data _ hgE hgD hdisj
      show (do
          let p ← processExpert (fakes i) e data
          let q ← anonymizeLoop fakes (i + 1) es p.2
          return (p.1 :: q.1, q.2)) = _
      by_cases hdata : ∃ r ∈ data, recHas r "ExpertId" = false
      · cases hid : recHas e "Id" with
        | false => rw [processExpert_keyError_noId (fakes i) e data hid]; rfl
        | true =>
            rw [processExpert_keyError_data (fakes i) e data hid hgD hdata]
            rfl
      · have hd1 : ∀ r ∈ data, recHas r "ExpertId" = true := by
          intro r hr
          cases h : recHas r "ExpertId" with
          | false => exact absurd ⟨r, hr, h⟩ hdata
          | true => rfl
        rcases hdisj with hexp | hdat
        · obtain ⟨e0, he0, hf0⟩ := hexp
          rcases List.mem_cons.mp he0 with rfl | he0
          · rw [processExpert_keyError_noId (fakes i) e0 data hf0]; rfl
          · cases hid : recHas e "Id" with
            | false => rw [processExpert_keyError_noId (fakes i) e data hid]; rfl
            | true =>
                rw [processExpert_ok (fakes i) e data hid
                  (hgE e (List.mem_cons_self e es)) hd1 hgD]
                show (do
                    let q ← anonymizeLoop fakes (i + 1) es
                      (data.map (stepWork (fakes i) (idOf e)))
                    return (cleanExpert (fakes i) e :: q.1, q.2)) = _
                rw [ih (i + 1) (data.map (stepWork (fakes i) (idOf e)))
                  (List.ne_nil_of_mem he0)
                  (fun x hx => hgE x (List.mem_cons_of_mem _ hx))
                  (by
                    intro x hx
                    obtain ⟨r0, hr0, rfl⟩ := List.mem_map.mp hx
                    exact goodWork_stepWork _ _ r0 (hgD r0 hr0))
                  (Or.inl ⟨e0, he0, hf0⟩)]
                rfl
        · exact absurd hdat hdata

/-- C10 (amended): with string-valued name/contact fields, `anonymize_data`
raises KeyError exactly when the experts list is nonempty and either some
expert lacks `Id` or some record of the original data lacks `ExpertId`;
when the experts list is empty it terminates normally regardless — in
particular a data record lacking `ExpertId` is never touched, because the
inner `record["ExpertId"]` subscript only runs inside the per-expert
loop. -/
theorem c10_keyerror_characterization (expert_data data : List Record)
    (fakes : Nat → FakeIdentity)
    (he2 : ∀ e ∈ expert_data, goodExpert e = true)
    (hd2 : ∀ r ∈ data, goodWork r = true) :
    (expert_data = [] → anonymize_data expert_data data fakes = .ok ([], data)) ∧
    (expert_data ≠ [] →
      (anonymize_data expert_data data fakes = .error .keyError ↔
        (∃ e ∈ expert_data, recHas e "Id" = false) ∨
        (∃ r ∈ data, recHas r "ExpertId" = false))) := by
  constructor
  · intro h; subst h; rfl
  · intro hne
    constructor
    · intro herr
      by_contra hno
      have he1 : ∀ e ∈ expert_data, recHas e "Id" = true := by
        intro e he
        cases h : recHas e "Id" with
        | false => exact absurd (Or.inl ⟨e, he, h⟩) hno
        | true => rfl
      have hd1 : ∀ r ∈ data, recHas r "ExpertId" = true := by
        intro r hr
        cases h : recHas r "ExpertId" with
        | false => exact absurd (Or.inr ⟨r, hr, h⟩) hno
        | true => rfl
      rw [anonymize_data_ok expert_data data fakes he1 he2 hd1 hd2] at herr
      exact Except.noConfusion herr
    · intro hdisj
      exact anonymizeLoop_keyError fakes expert_data 0 data hne he2 hd2 hdisj

/-- Witness for C10: an expert record without `Id` makes the run raise
KeyError; with an empty experts list a record without `ExpertId` is left
alone and the run terminates normally. -/
theorem c10_keyerror_characterization_witness :
    anonymize_data [[("Photo", JValue.str "p")]] []
        (fun _ => (⟨111111, "A", "B", "ph", "mo"⟩ : FakeIdentity)) =
      .error PyErr.keyError ∧
    anonymize_data [] [[("X", JValue.null)]]
        (fun _ => (⟨111111, "A", "B", "ph", "mo"⟩ : FakeIdentity)) =
      .ok ([], [[("X", JValue.null)]]) := by
  have h1 := c10_keyerror_characterization [[("Photo", JValue.str "p")]] []
      (fun _ => (⟨111111, "A", "B", "ph", "mo"⟩ : FakeIdentity))
      (by
        intro e he
        rcases List.mem_cons.mp he with rfl | he
        · rfl
        · exact absurd he (List.not_mem_nil e))
      (by intro r hr; exact absurd hr (List.not_mem_nil r))
  have h2 := c10_keyerror_characterization [] [[("X", JValue.null)]]
      (fun _ => (⟨111111, "A", "B", "ph", "mo"⟩ : FakeIdentity))
      (by intro e he; exact absurd he (List.not_mem_nil e))
      (by
        intro r hr
        rcases List.mem_cons.mp hr with rfl | hr
        · rfl
        · exact absurd hr (List.not_mem_nil r))
  refine ⟨(h1.2 (List.cons_ne_nil _ _)).mpr
    (Or.inl ⟨[("Photo", JValue.str "p")], List.mem_cons_self _ _, rfl⟩), h2.1 rfl⟩

/-- C10 counterexample: claim C10 states that `anonymize_data` raises
KeyError whenever any record in the original data lacks `ExpertId`; but
with an empty experts list the inner loop never runs, and a run over a
record without `ExpertId` terminates normally, writing the files. -/
theorem c10_counterexample :
    anonymize_data [] [[]] (fun _ => (⟨111111, "A", "B", "ph", "mo"⟩ : FakeIdentity)) =
      .ok ([], [[]]) ∧
    recHas ([] : Record) "ExpertId" = false :=
  ⟨rfl, rfl⟩

theorem anonNameStep_preserves (r : Record) (a first last full : String) (r' : Record)
    (h : anonNameStep r a first last full = .ok r') (k : String) (hk : k ≠ a) :
    recGet r' k = recGet r k := by
  unfold anonNameStep at h
  cases hg : recGet r a with
  | none => rw [hg] at h; cases h; rfl
  | some v =>
      rw [hg] at h
      cases v <;> simp [replaceSelf, Except.map] at h
      rw [← h, recGet_recSet_ne r a k _ (Ne.symm hk)]

theorem anonymize_name_preserves (l : List String) :
    ∀ (r : Record) (first last full : String) (r' : Record),
    anonymize_name r l first last full = .ok r' →
    ∀ k, ¬ k ∈ l → recGet r' k = recGet r k := by
  induction l with
  | nil => intro r _ _ _ r' h k _; cases h; rfl
  | cons a rest ih =>
      intro r first last full r' h k hk
      have hka : k ≠ a := fun he => hk (he ▸ List.mem_cons_self a rest)
      cases hs : anonNameStep r a first last full with
      | error err =>
          unfold anonymize_name at h
          rw [hs] at h
          exact Except.noConfusion h
      | ok r1 =>
          unfold anonymize_name at h
          rw [hs] at h
          have h2 : anonymize_name r1 rest first last full = .ok r' := h
          rw [ih r1 first last full r' h2 k (fun hx => hk (List.mem_cons_of_mem _ hx))]
          exact anonNameStep_preserves r a first last full r1 hs k hka

theorem anonContactStep_preserves (r : Record) (a email phone mobile : String) (r' : Record)
    (k : String) (hk : k ≠ a) :
    anonContactStep r a email phone mobile = .ok r' → recGet r' k = recGet r k := by
  unfold anonContactStep
  cases hg : recGet r a with
  | none => intro h; cases h; rfl
  | some v =>
      cases v <;> simp only [replaceSelf, Except.map] <;> intro h <;> split_ifs at h <;>
        first
          | exact Except.noConfusion h
          | (cases h; rfl)
          | (cases h; rw [recGet_recSet_ne r a k _ (Ne.symm hk)])

theorem anonymize_contacts_preserves (l : List String) :
    ∀ (r : Record) (email phone mobile : String) (r' : Record),
    anonymize_contacts r l email phone mobile = .ok r' →
    ∀ k, ¬ k ∈ l → recGet r' k = recGet r k := by
  induction l with
  | nil => intro r _ _ _ r' h k _; cases h; rfl
  | cons a rest ih =>
      intro r email phone mobile r' h k hk
      have hka : k ≠ a := fun he => hk (he ▸ List.mem_cons_self a rest)
      cases hs : anonContactStep r a email phone mobile with
      | error err =>
          unfold anonymize_contacts at h
          rw [hs] at h
          exact Except.noConfusion h
      | ok r1 =>
          unfold anonymize_contacts at h
          rw [hs] at h
          have h2 : anonymize_contacts r1 rest email phone mobile = .ok r' := h
          rw [ih r1 email phone mobile r' h2 k (fun hx => hk (List.mem_cons_of_mem _ hx))]
          exact anonContactStep_preserves r a email phone mobile r1 k hka hs

theorem processExpert_id (F : FakeIdentity) (e : Record) (data : List Record)
    (e' : Record) (data' : List Record) (h : processExpert F e data = .ok (e', data')) :
    recGet e' "Id" = some (.num F.fid) := by
  unfold processExpert at h
  cases hidx : pyIndex e "Id" with
  | error err => rw [hidx] at h; exact Except.noConfusion h
  | ok v =>
      rw [hidx] at h
      have h1 : (do
          let data0 ← anonWorksPass v F data
          let e2 ← anonymize_name (remove_data e) name_list F.firstName F.lastName (fakeFull F)
          let e3 ← anonymize_contacts e2 contact_list (fakeEmail F) F.phone F.mobile
          return (anonymize_id e3 id_list F.fid, data0)) = .ok (e', data') := h
      cases hw : anonWorksPass v F data with
      | error err => rw [hw] at h1; exact Except.noConfusion h1
      | ok data0 =>
          rw [hw] at h1
          have h2 : (do
              let e2 ← anonymize_name (remove_data e) name_list F.firstName F.lastName
                (fakeFull F)
              let e3 ← anonymize_contacts e2 contact_list (fakeEmail F) F.phone F.mobile
              return (anonymize_id e3 id_list F.fid, data0)) = .ok (e', data') := h1
          cases hn : anonymize_name (remove_data e) name_list F.firstName F.lastName
              (fakeFull F) with
          | error err => rw [hn] at h2; exact Except.noConfusion h2
          | ok e2 =>
              rw [hn] at h2
              have h3 : (do
                  let e3 ← anonymize_contacts e2 contact_list (fakeEmail F) F.phone F.mobile
                  return (anonymize_id e3 id_list F.fid, data0)) = .ok (e', data') := h2
              cases hct : anonymize_contacts e2 contact_list (fakeEmail F) F.phone F.mobile with
              | error err => rw [hct] at h3; exact Except.noConfusion h3
              | ok e3 =>
                  rw [hct] at h3
                  have h4 : (Except.ok (anonymize_id e3 id_list F.fid, data0) :
                      Except PyErr (Record × List Record)) = .ok (e', data') := h3
                  cases h4
                  have hv' : recGet e "Id" = some v := by
                    unfold pyIndex at hidx
                    cases hg : recGet e "Id" with
                    | none => rw [hg] at hidx; exact Except.noConfusion hidx
                    | some u => rw [hg] at hidx; cases hidx; rfl
                  have hpe : recGet e3 "Id" = recGet e2 "Id" :=
                    anonymize_contacts_preserves contact_list e2 (fakeEmail F) F.phone F.mobile
                      e3 hct "Id" (by decide)
                  have hpn : recGet e2 "Id" = recGet (remove_data e) "Id" :=
                    anonymize_name_preserves name_list (remove_data e) F.firstName F.lastName
                      (fakeFull F) e2 hn "Id" (by decide)
                  rw [anonymize_id_id_ok, recGet_setIfPresent_self, hpe, hpn,
                    recGet_remove_data_keep e "Id" (by decide), hv']
                  rfl

theorem anonymizeLoop_ids (fakes : Nat → FakeIdentity) (experts : List Record) :
    ∀ (i : Nat) (data es ws : List Record),
    anonymizeLoop fakes i experts data = .ok (es, ws) →
    es.map (fun e => recGet e "Id") =
      (List.range experts.length).map (fun j => some (JValue.num (fakes (i + j)).fid)) := by
  induction experts with
  | nil =>
      intro i data es ws h
      cases h
      rfl
  | cons e es0 ih =>
      intro i data es ws h
      have h1 : (do
          let p ← processExpert (fakes i) e data
          let q ← anonymizeLoop fakes (i + 1) es0 p.2
          return (p.1 :: q.1, q.2)) = .ok (es, ws) := h
      cases hp : processExpert (fakes i) e data with
      | error err => rw [hp] at h1; exact Except.noConfusion h1
      | ok p =>
          obtain ⟨e', data'⟩ := p
          rw [hp] at h1
          have h1a : (do
              let q ← anonymizeLoop fakes (i + 1) es0 data'
              return (e' :: q.1, q.2)) = (.ok (es, ws) :
                Except PyErr (List Record × List Record)) := h1
          cases hq : anonymizeLoop fakes (i + 1) es0 data' with
          | error err => rw [hq] at h1a; exact Except.noConfusion h1a
          | ok q =>
              rw [hq] at h1a
              obtain ⟨es', ws'⟩ := q
              have h2 : (Except.ok (e' :: es', ws') : Except PyErr (List Record × List Record))
                  = .ok (es, ws) := h1a
              cases h2
              rw [List.map_cons, processExpert_id (fakes i) e data e' data' hp,
                ih (i + 1) data' es' ws hq,
                show (e :: es0).length = es0.length + 1 from rfl,
                List.range_succ_eq_map, List.map_cons, List.map_map]
              congr 1
              apply map_congr_mem
              intro j _
              show some (JValue.num (fakes (i + 1 + j)).fid) =
                some (JValue.num (fakes (i + Nat.succ j)).fid)
              have harith : i + 1 + j = i + Nat.succ j := by omega
              rw [harith]

theorem uniqueDraw_spec (raw : Nat → Int) (seen : List Int) :
    ∀ (fuel pos : Nat) (v : Int) (pos' : Nat), uniqueDraw raw pos seen fuel = some (v, pos') →
    ¬ v ∈ seen := by
  intro fuel
  induction fuel with
  | zero => intro pos v pos' h; exact absurd h (by simp [uniqueDraw])
  | succ n ih =>
      intro pos v pos' h
      have h2 : (if seen.contains (raw pos) then uniqueDraw raw (pos + 1) seen n
          else some (raw pos, pos + 1)) = some (v, pos') := h
      cases hc : seen.contains (raw pos) with
      | true => rw [hc, if_pos rfl] at h2; exact ih (pos + 1) v pos' h2
      | false =>
          rw [hc, if_neg Bool.false_ne_true] at h2
          cases h2
          intro hmem
          have h3 : seen.elem (raw pos) = true := List.elem_eq_true_of_mem hmem
          have h4 : seen.contains (raw pos) = true := h3
          rw [h4] at hc
          exact Bool.noConfusion hc

theorem uniqueSeq_spec (raw : Nat → Int) :
    ∀ (n pos : Nat) (seen ids : List Int), uniqueSeq raw n pos seen = some ids →
    ids.Nodup ∧ ∀ v ∈ ids, ¬ v ∈ seen := by
  intro n
  induction n with
  | zero =>
      intro pos seen ids h
      cases h
      exact ⟨List.nodup_nil, by simp⟩
  | succ n ih =>
      intro pos seen ids h
      unfold uniqueSeq at h
      cases hd : uniqueDraw raw pos seen 1000 with
      | none => rw [hd] at h; exact Option.noConfusion h
      | some p =>
          obtain ⟨v, pos'⟩ := p
          rw [hd] at h
          have h2 : (uniqueSeq raw n pos' (v :: seen)).map (fun ids => v :: ids) =
              some ids := h
          cases ht : uniqueSeq raw n pos' (v :: seen) with
          | none => rw [ht] at h2; simp at h2
          | some tl =>
              rw [ht] at h2
              simp only [Option.map_some'] at h2
              cases h2
              obtain ⟨htl_nodup, htl_fresh⟩ := ih pos' (v :: seen) tl ht
              have hvnotin : ¬ v ∈ seen := uniqueDraw_spec raw seen 1000 pos v pos' hd
              constructor
              · exact List.nodup_cons.mpr
                  ⟨fun hvtl => htl_fresh v hvtl (List.mem_cons_self v seen), htl_nodup⟩
              · intro x hx
                rcases List.mem_cons.mp hx with rfl | hx
                · exact hvnotin
                · exact fun hxs => htl_fresh x hx (List.mem_cons_of_mem _ hxs)

theorem uniqueSeq_length (raw : Nat → Int) :
    ∀ (n pos : Nat) (seen ids : List Int), uniqueSeq raw n pos seen = some ids →
    ids.length = n := by
  intro n
  induction n with
  | zero => intro pos seen ids h; cases h; rfl
  | succ n ih =>
      intro pos seen ids h
      unfold uniqueSeq at h
      cases hd : uniqueDraw raw pos seen 1000 with
      | none => rw [hd] at h; exact Option.noConfusion h
      | some p =>
          obtain ⟨v, pos'⟩ := p
          rw [hd] at h
          have h2 : (uniqueSeq raw n pos' (v :: seen)).map (fun ids => v :: ids) =
              some ids := h
          cases ht : uniqueSeq raw n pos' (v :: seen) with
          | none => rw [ht] at h2; simp at h2
          | some tl =>
              rw [ht] at h2
              simp only [Option.map_some'] at h2
              cases h2
              simp [ih pos' (v :: seen) tl ht]

theorem map_range_getD {β : Type} (ids : List Int) (f : Int → β) :
    (List.range ids.length).map (fun j => f (ids.getD j 0)) = ids.map f := by
  induction ids with
  | nil => rfl
  | cons x xs ih =>
      show (List.range (xs.length + 1)).map (fun j => f ((x :: xs).getD j 0)) = _
      rw [List.range_succ_eq_map, List.map_cons, List.map_map]
      have hcomp : ((fun j => f ((x :: xs).getD j 0)) ∘ (· + 1)) =
          (fun j => f (xs.getD j 0)) := by
        funext j
        rfl
      rw [hcomp, ih]
      rfl

/-- C6: in one completed run the synthetic ids assigned to the experts
are pairwise distinct: `fake.unique.random_int` only ever returns a value
not produced earlier in the run (the faker `unique` proxy re-draws until
the value is fresh and otherwise raises, aborting the run), so the `Id`
values written to experts_cleaned.json are `Nodup` — a guarantee of the
generator, not a probabilistic property. -/
theorem c6_unique_ids (expert_data data : List Record) (fakes : Nat → FakeIdentity)
    (raw : Nat → Int) (ids : List Int)
    (hgen : uniqueSeq raw expert_data.length 0 [] = some ids)
    (hfid : ∀ j, j < expert_data.length → (fakes j).fid = ids.getD j 0)
    (es ws : List Record)
    (hok : anonymize_data expert_data data fakes = .ok (es, ws)) :
    (es.map (fun e => recGet e "Id")).Nodup := by
  obtain ⟨hnodup, _⟩ := uniqueSeq_spec raw expert_data.length 0 [] ids hgen
  have hlen := uniqueSeq_length raw expert_data.length 0 [] ids hgen
  rw [anonymizeLoop_ids fakes expert_data 0 data es ws hok]
  have heq : (List.range expert_data.length).map
      (fun j => some (JValue.num (fakes (0 + j)).fid)) =
      ids.map (fun x => some (JValue.num x)) := by
    rw [← map_range_getD ids (fun x => some (JValue.num x)), ← hlen]
    apply map_congr_mem
    intro j hj
    rw [Nat.zero_add, hfid j (by rw [← hlen]; exact List.mem_range.mp hj)]
  rw [heq]
  apply List.Nodup.map ?inj hnodup
  intro a b hab
  simpa using hab

/-- Witness for C6: two experts, raw stream `111111, 111112, ...`; the
two synthetic ids drawn are distinct and so are the output `Id` values. -/
theorem c6_unique_ids_witness :
    (([[("Id", JValue.num 111111)], [("Id", JValue.num 111112)]] : List Record).map
      (fun e => recGet e "Id")).Nodup := by
  exact c6_unique_ids [[("Id", JValue.str "e1")], [("Id", JValue.str "e2")]] []
    (fun j => ⟨111111 + Int.ofNat j, "A", "B", "ph", "mo"⟩)
    (fun n => 111111 + Int.ofNat n) [111111, 111112]
    (by decide)
    (by
      intro j hj
      have hj2 : j < 2 := by simpa using hj
      interval_cases j <;> decide)
    [[("Id", JValue.num 111111)], [("Id", JValue.num 111112)]] [] rfl

/-- C7: running the anonymizer twice on the same input files with the same
fixed random seed produces byte-identical works_cleaned.json and
experts_cleaned.json.  With the global faker state seeded, every synthetic
identity is a function of the seed and the draw index alone, and
`json.dumps(..., indent=4)` is deterministic, so the produced byte strings
coincide. -/
theorem c7_seeded_determinism (seed : Nat) (expert_data data : List Record)
    (out1 out2 : Except PyErr (String × String))
    (h1 : out1 = run_anonymize_files seed expert_data data)
    (h2 : out2 = run_anonymize_files seed expert_data data) :
    out1 = out2 :=
  h1.trans h2.symm

/-- Witness for C7: two runs at seed 42 on a one-expert, one-work input
give the same pair of file contents. -/
theorem c7_seeded_determinism_witness :
    run_anonymize_files 42 [[("Id", JValue.num 1)]] [[("ExpertId", JValue.num 1)]] =
      run_anonymize_files 42 [[("Id", JValue.num 1)]] [[("ExpertId", JValue.num 1)]] :=
  c7_seeded_determinism 42 [[("Id", JValue.num 1)]] [[("ExpertId", JValue.num 1)]]
    (run_anonymize_files 42 [[("Id", JValue.num 1)]] [[("ExpertId", JValue.num 1)]])
    (run_anonymize_files 42 [[("Id", JValue.num 1)]] [[("ExpertId", JValue.num 1)]])
    rfl rfl

theorem skipWs_not_ws {c : Char} (h : isWsChar c = false) (cs : List Char) :
    skipWs (c :: cs) = c :: cs := by
  show (if isWsChar c then skipWs cs else c :: cs) = c :: cs
  rw [h, if_neg Bool.false_ne_true]

theorem skipWs_ws_cons {c : Char} (h : isWsChar c = true) (cs : List Char) :
    skipWs (c :: cs) = skipWs cs := by
  show (if isWsChar c then skipWs cs else c :: cs) = skipWs cs
  rw [h, if_pos rfl]

theorem skipWs_indent (n : Nat) (cs : List Char) :
    skipWs (indentChars n ++ cs) = skipWs cs := by
  induction n with
  | zero => rfl
  | succ m ih =>
      show skipWs (' ' :: (indentChars m ++ cs)) = skipWs cs
      rw [skipWs_ws_cons (show isWsChar ' ' = true from rfl)]
      exact ih

theorem skipWs_newline (cs : List Char) : skipWs ('\n' :: cs) = skipWs cs :=
  skipWs_ws_cons (show isWsChar '\n' = true from rfl) cs

theorem takeDigits_map_dChar (ds : List Nat) (hds : ∀ d ∈ ds, d < 10) :
    ∀ rest, headNotDigit rest = true →
    takeDigits (ds.map dChar ++ rest) = (ds, rest) := by
  induction ds with
  | nil =>
      intro rest hrest
      cases rest with
      | nil => rfl
      | cons c cs =>
          show takeDigits (c :: cs) = ([], c :: cs)
          have hrest2 : (digitVal c).isNone = true := hrest
          cases hd : digitVal c with
          | none => unfold takeDigits; rw [hd]
          | some d =>
              rw [hd] at hrest2
              exact absurd hrest2 (by simp)
  | cons d ds ih =>
      intro rest hrest
      have hd : d < 10 := hds d (List.mem_cons_self d ds)
      have hval : digitVal (dChar d) = some d := by
        interval_cases d <;> rfl
      show takeDigits (dChar d :: (ds.map dChar ++ rest)) = _
      unfold takeDigits
      rw [hval, ih (fun x hx => hds x (List.mem_cons_of_mem _ hx)) rest hrest]

theorem foldl_digits_reverse (L : List Nat) :
    ∀ a : Nat, L.reverse.foldl (fun a d => 10 * a + d) a =
      a * 10 ^ L.length + Nat.ofDigits 10 L := by
  induction L with
  | nil => intro a; simp
  | cons d L ih =>
      intro a
      rw [List.reverse_cons, List.foldl_append, ih a]
      show 10 * (a * 10 ^ L.length + Nat.ofDigits 10 L) + d = _
      rw [Nat.ofDigits_cons, List.length_cons, pow_succ]
      push_cast
      ring

theorem foldDigits_digits (n : Nat) :
    foldDigits (Nat.digits 10 n).reverse = n := by
  unfold foldDigits
  rw [foldl_digits_reverse (Nat.digits 10 n) 0, Nat.ofDigits_digits]
  simp

theorem natChars_spec (n : Nat) (rest : List Char) (hrest : headNotDigit rest = true) :
    ∃ d ds, natChars n = dChar d :: (ds.map dChar) ∧ d < 10 ∧
      takeDigits (natChars n ++ rest) = (d :: ds, rest) ∧ foldDigits (d :: ds) = n := by
  by_cases hn : n = 0
  · subst hn
    refine ⟨0, [], rfl, by omega, ?_, rfl⟩
    have := takeDigits_map_dChar [0] (by intro d hd; simp at hd; omega) rest hrest
    exact this
  · have hne : Nat.digits 10 n ≠ [] := Nat.digits_ne_nil_iff_ne_zero.mpr hn
    have hbound : ∀ d ∈ (Nat.digits 10 n).reverse, d < 10 := by
      intro d hd
      exact Nat.digits_lt_base (by omega) (List.mem_reverse.mp hd)
    cases hrev : (Nat.digits 10 n).reverse with
    | nil => exact absurd (by simpa using hrev) hne
    | cons d ds =>
        rw [hrev] at hbound
        have hnc : natChars n = dChar d :: ds.map dChar := by
          unfold natChars
          rw [if_neg hn, hrev, List.map_cons]
        refine ⟨d, ds, hnc, hbound d (List.mem_cons_self d ds), ?_, ?_⟩
        · rw [hnc]
          have := takeDigits_map_dChar (d :: ds) hbound rest hrest
          rw [List.map_cons] at this
          exact this
        · have := foldDigits_digits n
          rw [hrev] at this
          exact this

theorem dChar_lt_10_props (d : Nat) (hd : d < 10) :
    isWsChar (dChar d) = false ∧ dChar d ≠ 'n' ∧ dChar d ≠ 't' ∧ dChar d ≠ 'f' ∧
    dChar d ≠ '"' ∧ dChar d ≠ '[' ∧ dChar d ≠ lbrace ∧ dChar d ≠ '-' := by
  interval_cases d <;> exact ⟨rfl, by decide, by decide, by decide, by decide, by decide,
    by decide, by decide⟩

theorem parseNumber_intChars (n : Int) (rest : List Char) (hrest : headNotDigit rest = true) :
    parseNumber (intChars n ++ rest) = some (.num n, rest) := by
  by_cases hneg : n < 0
  · have hi : intChars n = '-' :: natChars n.natAbs := by unfold intChars; rw [if_pos hneg]
    rw [hi]
    obtain ⟨d, ds, hnc, hd, htake, hfold⟩ := natChars_spec n.natAbs rest hrest
    show parseNumber ('-' :: (natChars n.natAbs ++ rest)) = _
    simp only [parseNumber, if_pos rfl, htake, hfold]
    have hcast : (-(n.natAbs : Int)) = n := by omega
    rw [hcast, if_pos trivial]
  · have hi : intChars n = natChars n.toNat := by unfold intChars; rw [if_neg hneg]
    rw [hi]
    obtain ⟨d, ds, hnc, hd, htake, hfold⟩ := natChars_spec n.toNat rest hrest
    rw [hnc]
    show parseNumber (dChar d :: (ds.map dChar ++ rest)) = _
    rw [hnc] at htake
    have htake2 : takeDigits (dChar d :: (ds.map dChar ++ rest)) = (d :: ds, rest) := htake
    simp only [parseNumber, if_neg (dChar_lt_10_props d hd).2.2.2.2.2.2.2, htake2, hfold]
    have hcast : ((n.toNat : Int)) = n := by omega
    rw [hcast]


theorem parseValue_ws (fuel : Nat) {c : Char} (h : isWsChar c = true) (cs : List Char) :
    parseValue fuel (c :: cs) = parseValue fuel cs := by
  cases fuel with
  | zero => rfl
  | succ f =>
      simp only [parseValue]
      rw [skipWs_ws_cons h]

theorem parseItems_ws (fuel : Nat) {c : Char} (h : isWsChar c = true) (cs : List Char) :
    parseItems fuel (c :: cs) = parseItems fuel cs := by
  cases fuel with
  | zero => rfl
  | succ f =>
      simp only [parseItems]
      rw [parseValue_ws f h]

theorem parseMembers_ws (fuel : Nat) {c : Char} (h : isWsChar c = true) (cs : List Char) :
    parseMembers fuel (c :: cs) = parseMembers fuel cs := by
  cases fuel with
  | zero => rfl
  | succ f =>
      simp only [parseMembers]
      rw [skipWs_ws_cons h]

theorem parseItems_indent (fuel n : Nat) (cs : List Char) :
    parseItems fuel (indentChars n ++ cs) = parseItems fuel cs := by
  induction n with
  | zero => rfl
  | succ m ih =>
      show parseItems fuel (' ' :: (indentChars m ++ cs)) = parseItems fuel cs
      rw [parseItems_ws fuel (show isWsChar ' ' = true from rfl)]
      exact ih

theorem parseMembers_indent (fuel n : Nat) (cs : List Char) :
    parseMembers fuel (indentChars n ++ cs) = parseMembers fuel cs := by
  induction n with
  | zero => rfl
  | succ m ih =>
      show parseMembers fuel (' ' :: (indentChars m ++ cs)) = parseMembers fuel cs
      rw [parseMembers_ws fuel (show isWsChar ' ' = true from rfl)]
      exact ih

theorem parseItems_nl_indent (fuel n : Nat) (cs : List Char) :
    parseItems fuel ('\n' :: (indentChars n ++ cs)) = parseItems fuel cs := by
  rw [parseItems_ws fuel (show isWsChar '\n' = true from rfl)]
  exact parseItems_indent fuel n cs

theorem parseMembers_nl_indent (fuel n : Nat) (cs : List Char) :
    parseMembers fuel ('\n' :: (indentChars n ++ cs)) = parseMembers fuel cs := by
  rw [parseMembers_ws fuel (show isWsChar '\n' = true from rfl)]
  exact parseMembers_indent fuel n cs

theorem parseValue_succ_arrHead (f : Nat) (X : List Char) :
    parseValue (f + 1) ('[' :: X) =
      match skipWs X with
      | [] => none
      | c0 :: r =>
          if c0 = ']' then some (JValue.arr [], r)
          else (parseItems f (c0 :: r)).map (fun p => (JValue.arr p.1, p.2)) := rfl

theorem parseValue_succ_objHead (f : Nat) (X : List Char) :
    parseValue (f + 1) (lbrace :: X) =
      match skipWs X with
      | [] => none
      | c0 :: r =>
          if c0 = rbrace then some (JValue.obj [], r)
          else (parseMembers f (c0 :: r)).map (fun p => (JValue.obj (buildDict p.1), p.2)) := rfl

theorem parseValue_arr_cons (f n : Nat) {c : Char} (r : List Char)
    (hw : isWsChar c = false) (hne : c ≠ ']') :
    parseValue (f + 1) ('[' :: '\n' :: (indentChars n ++ (c :: r))) =
      (parseItems f (c :: r)).map (fun p => (JValue.arr p.1, p.2)) := by
  rw [parseValue_succ_arrHead, skipWs_newline, skipWs_indent, skipWs_not_ws hw]
  exact if_neg hne

theorem dumpStrLit_append (k : String) (Y : List Char) :
    dumpStrLit false k ++ Y = '"' :: (escapeChars false k.data ++ ('"' :: Y)) := by
  show ('"' :: (escapeChars false k.data ++ ['"'])) ++ Y = _
  rw [List.cons_append, List.append_assoc, List.singleton_append]

theorem parseValue_obj_cons (f n : Nat) (k : String) (Y : List Char) :
    parseValue (f + 1) (lbrace :: '\n' :: (indentChars n ++ (dumpStrLit false k ++ Y))) =
      (parseMembers f (dumpStrLit false k ++ Y)).map
        (fun p => (JValue.obj (buildDict p.1), p.2)) := by
  rw [dumpStrLit_append, parseValue_succ_objHead, skipWs_newline, skipWs_indent,
    skipWs_not_ws (show isWsChar '"' = false from rfl)]
  exact if_neg (by decide)

theorem parseItems_succ_some (f : Nat) (cs : List Char) (x : JValue) (t : List Char)
    (h : parseValue f cs = some (x, t)) :
    parseItems (f + 1) cs =
      match skipWs t with
      | [] => none
      | c :: r =>
          if c = ',' then (parseItems f r).map (fun q => (x :: q.1, q.2))
          else if c = ']' then some ([x], r)
          else none := by
  simp only [parseItems, h]
  rfl

theorem parseItems_last (f : Nat) (cs : List Char) (x : JValue) (cl : Nat) (rest : List Char)
    (h : parseValue f cs = some (x, '\n' :: (indentChars cl ++ (']' :: rest)))) :
    parseItems (f + 1) cs = some ([x], rest) := by
  rw [parseItems_succ_some f cs x _ h, skipWs_newline, skipWs_indent,
    skipWs_not_ws (show isWsChar ']' = false from rfl)]
  rfl

theorem parseItems_comma (f : Nat) (cs : List Char) (x : JValue) (R : List Char)
    (h : parseValue f cs = some (x, ',' :: R)) :
    parseItems (f + 1) cs = (parseItems f R).map (fun q => (x :: q.1, q.2)) := by
  rw [parseItems_succ_some f cs x _ h, skipWs_not_ws (show isWsChar ',' = false from rfl)]
  rfl



theorem hexVal_hexChar (x : Nat) (hx : x < 16) : hexVal (hexChar x) = some x := by
  interval_cases x <;> rfl

set_option maxHeartbeats 1000000 in
theorem parseStringBody_escapeChar (c : Char) (tail : List Char) :
    parseStringBody (escapeChar false c ++ tail) =
      (parseStringBody tail).map (fun p => (c :: p.1, p.2)) := by
  unfold escapeChar
  split_ifs with h1 h2 h3 h4 h5 h6 h7 h8 h9 h10
  · subst h1; rw [parseStringBody.eq_def]; rfl
  · subst h2; rw [parseStringBody.eq_def]; rfl
  · subst h3; rw [parseStringBody.eq_def]; rfl
  · subst h4; rw [parseStringBody.eq_def]; rfl
  · subst h5; rw [parseStringBody.eq_def]; rfl
  · have hc : c = Char.ofNat 8 := by rw [← h6, Char.ofNat_toNat]
    subst hc
    rw [parseStringBody.eq_def]; rfl
  · have hc : c = Char.ofNat 12 := by rw [← h7, Char.ofNat_toNat]
    subst hc
    rw [parseStringBody.eq_def]; rfl
  · obtain ⟨n, hn, hlt⟩ : ∃ n, c.toNat = n ∧ n < 32 := ⟨c.toNat, rfl, h8⟩
    conv_rhs => rw [← Char.ofNat_toNat c]
    rw [hn]
    interval_cases n <;> (rw [parseStringBody.eq_def]; rfl)
  · simp at h9
  · simp at h9
  · show parseStringBody (c :: tail) = (parseStringBody tail).map (fun p => (c :: p.1, p.2))
    rw [parseStringBody.eq_def]
    exact (if_neg h1).trans (if_neg h2)

theorem parseStringBody_escape (s : List Char) (rest : List Char) :
    parseStringBody (escapeChars false s ++ ('"' :: rest)) = some (s, rest) := by
  induction s with
  | nil =>
      show parseStringBody ('"' :: rest) = some ([], rest)
      rw [parseStringBody.eq_def]
      rfl
  | cons c cs ih =>
      show parseStringBody ((escapeChar false c ++ escapeChars false cs) ++ ('"' :: rest)) = _
      rw [List.append_assoc, parseStringBody_escapeChar, ih]
      rfl

theorem parseMembers_afterKey (f : Nat) (k : String) (t2 : List Char) :
    parseMembers (f + 1) (dumpStrLit false k ++ (':' :: ' ' :: t2)) =
      match parseValue f t2 with
      | none => none
      | some vp =>
          match skipWs vp.2 with
          | [] => none
          | c4 :: r4 =>
              if c4 = ',' then
                (parseMembers f r4).map (fun mp => ((k, vp.1) :: mp.1, mp.2))
              else if c4 = rbrace then some ([(k, vp.1)], r4)
              else none := by
  rw [dumpStrLit_append]
  have u : parseMembers (f + 1)
        ('"' :: (escapeChars false k.data ++ ('"' :: (':' :: ' ' :: t2)))) =
      match parseStringBody (escapeChars false k.data ++ ('"' :: (':' :: ' ' :: t2))) with
      | none => none
      | some kp =>
          match skipWs kp.2 with
          | [] => none
          | c2 :: r2 =>
              if c2 = ':' then
                match parseValue f r2 with
                | none => none
                | some vp =>
                    match skipWs vp.2 with
                    | [] => none
                    | c4 :: r4 =>
                        if c4 = ',' then
                          (parseMembers f r4).map
                            (fun mp => ((String.mk kp.1, vp.1) :: mp.1, mp.2))
                        else if c4 = rbrace then some ([(String.mk kp.1, vp.1)], r4)
                        else none
              else none := rfl
  rw [u, parseStringBody_escape]
  show (match parseValue f (' ' :: t2) with
        | none => none
        | some vp =>
            match skipWs vp.2 with
            | [] => none
            | c4 :: r4 =>
                if c4 = ',' then
                  (parseMembers f r4).map
                    (fun (mp : List (String × JValue) × List Char) =>
                      ((String.mk k.data, vp.1) :: mp.1, mp.2))
                else if c4 = rbrace then some ([(String.mk k.data, vp.1)], r4)
                else none) = _
  rw [parseValue_ws f (show isWsChar ' ' = true from rfl) t2]

theorem parseMembers_last (f : Nat) (k : String) (v : JValue) (t2 : List Char) (cl : Nat)
    (rest : List Char)
    (h2 : parseValue f t2 = some (v, '\n' :: (indentChars cl ++ (rbrace :: rest)))) :
    parseMembers (f + 1) (dumpStrLit false k ++ (':' :: ' ' :: t2)) = some ([(k, v)], rest) := by
  rw [parseMembers_afterKey, h2]
  show (match skipWs ('\n' :: (indentChars cl ++ (rbrace :: rest))) with
        | [] => none
        | c4 :: r4 =>
            if c4 = ',' then (parseMembers f r4).map (fun mp => ((k, v) :: mp.1, mp.2))
            else if c4 = rbrace then some ([(k, v)], r4)
            else none) = some ([(k, v)], rest)
  rw [skipWs_newline, skipWs_indent, skipWs_not_ws (show isWsChar rbrace = false from rfl)]
  rfl

theorem parseMembers_comma (f : Nat) (k : String) (v : JValue) (t2 R : List Char)
    (h2 : parseValue f t2 = some (v, ',' :: R)) :
    parseMembers (f + 1) (dumpStrLit false k ++ (':' :: ' ' :: t2)) =
      (parseMembers f R).map (fun mp => ((k, v) :: mp.1, mp.2)) := by
  rw [parseMembers_afterKey, h2]
  show (match skipWs (',' :: R) with
        | [] => none
        | c4 :: r4 =>
            if c4 = ',' then (parseMembers f r4).map (fun mp => ((k, v) :: mp.1, mp.2))
            else if c4 = rbrace then some ([(k, v)], r4)
            else none) = (parseMembers f R).map (fun mp => ((k, v) :: mp.1, mp.2))
  rw [skipWs_not_ws (show isWsChar ',' = false from rfl)]
  rfl

theorem dChar_props (d : Nat) (hd : d < 10) :
    isWsChar (dChar d) = false ∧ dChar d ≠ 'n' ∧ dChar d ≠ 't' ∧ dChar d ≠ 'f' ∧
    dChar d ≠ '"' ∧ dChar d ≠ '[' ∧ dChar d ≠ lbrace ∧ dChar d ≠ ']' := by
  interval_cases d <;> exact ⟨rfl, by decide, by decide, by decide, by decide, by decide,
    by decide, by decide⟩

theorem natChars_head (n : Nat) : ∃ d cr, d < 10 ∧ natChars n = dChar d :: cr := by
  by_cases hn : n = 0
  · exact ⟨0, [], by omega, by rw [hn]; rfl⟩
  · have hne : Nat.digits 10 n ≠ [] := Nat.digits_ne_nil_iff_ne_zero.mpr hn
    cases hrev : (Nat.digits 10 n).reverse with
    | nil => exact absurd (by simpa using hrev) hne
    | cons d ds =>
        have hd : d < 10 := Nat.digits_lt_base (by omega)
          (List.mem_reverse.mp (hrev ▸ List.mem_cons_self d ds))
        exact ⟨d, ds.map dChar, hd, by unfold natChars; rw [if_neg hn, hrev, List.map_cons]⟩

theorem intChars_head (n : Int) :
    ∃ c cr, intChars n = c :: cr ∧ isWsChar c = false ∧ c ≠ 'n' ∧ c ≠ 't' ∧ c ≠ 'f' ∧
      c ≠ '"' ∧ c ≠ '[' ∧ c ≠ lbrace ∧ c ≠ ']' := by
  by_cases hneg : n < 0
  · exact ⟨'-', natChars n.natAbs, by unfold intChars; rw [if_pos hneg], rfl, by decide,
      by decide, by decide, by decide, by decide, by decide, by decide⟩
  · obtain ⟨d, cr, hd, hnc⟩ := natChars_head n.toNat
    obtain ⟨hw, h1, h2, h3, h4, h5, h6, h8⟩ := dChar_props d hd
    exact ⟨dChar d, cr, by unfold intChars; rw [if_neg hneg, hnc], hw, h1, h2, h3, h4, h5, h6, h8⟩

theorem dumpVal_head (ind level : Nat) (v : JValue) :
    ∃ c cr, dumpVal false ind level v = c :: cr ∧ isWsChar c = false ∧ c ≠ ']' := by
  cases v with
  | null => exact ⟨'n', _, rfl, rfl, by decide⟩
  | bool b =>
      cases b with
      | true => exact ⟨'t', _, rfl, rfl, by decide⟩
      | false => exact ⟨'f', _, rfl, rfl, by decide⟩
  | num n =>
      obtain ⟨c, cr, hic, hw, _, _, _, _, _, _, h8⟩ := intChars_head n
      exact ⟨c, cr, hic, hw, h8⟩
  | str s => exact ⟨'"', _, rfl, rfl, by decide⟩
  | arr xs =>
      cases xs with
      | nil => exact ⟨'[', _, rfl, rfl, by decide⟩
      | cons x xs => exact ⟨'[', _, rfl, rfl, by decide⟩
  | obj fs =>
      cases fs with
      | nil => exact ⟨lbrace, _, rfl, rfl, by decide⟩
      | cons p fs => exact ⟨lbrace, _, rfl, rfl, by decide⟩

theorem jsize_pos (v : JValue) : 1 ≤ jsize v := by
  cases v <;> simp only [jsize] <;> omega

mutual
theorem jsize_le_dump (a : Bool) : ∀ (ind level : Nat) (v : JValue),
    jsize v ≤ (dumpVal a ind level v).length
  | ind, level, .null => by simp [jsize, dumpVal, nullChars]
  | ind, level, .bool b => by
      cases b <;> simp [jsize, dumpVal, trueChars, falseChars]
  | ind, level, .num n => by
      obtain ⟨c, cr, hic, _⟩ := intChars_head n
      simp only [jsize, dumpVal, hic, List.length_cons]
      omega
  | ind, level, .str s => by
      simp only [jsize, dumpVal, dumpStrLit, List.length_cons, List.length_append]
      omega
  | ind, level, .arr [] => by simp [jsize, jsizeList, dumpVal]
  | ind, level, .arr (x :: xs) => by
      have h1 := jsize_le_dump a ind (level + 1) x
      have h2 := jsize_le_dumpItems a ind (level + 1) xs
      simp only [jsize, jsizeList, dumpVal, List.length_cons, List.length_append]
      omega
  | ind, level, .obj [] => by simp [jsize, jsizeFields, dumpVal]
  | ind, level, .obj ((k, v) :: fs) => by
      have h1 := jsize_le_dump a ind (level + 1) v
      have h2 := jsize_le_dumpMembers a ind (level + 1) fs
      simp only [jsize, jsizeFields, dumpVal, List.length_cons, List.length_append]
      omega
theorem jsize_le_dumpItems (a : Bool) : ∀ (ind level : Nat) (xs : List JValue),
    jsizeList xs ≤ (dumpItems a ind level xs).length
  | ind, level, [] => by simp [jsizeList, dumpItems]
  | ind, level, x :: xs => by
      have h1 := jsize_le_dump a ind level x
      have h2 := jsize_le_dumpItems a ind level xs
      simp only [jsizeList, dumpItems, List.length_cons, List.length_append]
      omega
theorem jsize_le_dumpMembers (a : Bool) : ∀ (ind level : Nat) (fs : List (String × JValue)),
    jsizeFields fs ≤ (dumpMembers a ind level fs).length
  | ind, level, [] => by simp [jsizeFields, dumpMembers]
  | ind, level, (k, v) :: fs => by
      have h1 := jsize_le_dump a ind level v
      have h2 := jsize_le_dumpMembers a ind level fs
      simp only [jsizeFields, dumpMembers, List.length_cons, List.length_append]
      omega
end

theorem recSet_fresh (r : Record) (k : String) (v : JValue) (h : recGet r k = none) :
    recSet r k v = r ++ [(k, v)] := by
  induction r with
  | nil => rfl
  | cons p rest ih =>
      obtain ⟨k2, v2⟩ := p
      show (if k2 = k then (k2, v) :: rest else (k2, v2) :: recSet rest k v) =
        ((k2, v2) :: rest) ++ [(k, v)]
      have h2 : (if k2 = k then some v2 else recGet rest k) = none := h
      by_cases hk : k2 = k
      · rw [if_pos hk] at h2; exact absurd h2 (by simp)
      · rw [if_neg hk] at h2
        rw [if_neg hk, ih h2, List.cons_append]

theorem recGet_append_none (r s : Record) (k : String) (h : recGet r k = none) :
    recGet (r ++ s) k = recGet s k := by
  induction r with
  | nil => rfl
  | cons p rest ih =>
      obtain ⟨k2, v2⟩ := p
      show (if k2 = k then some v2 else recGet (rest ++ s) k) = recGet s k
      have h2 : (if k2 = k then some v2 else recGet rest k) = none := h
      by_cases hk : k2 = k
      · rw [if_pos hk] at h2; exact absurd h2 (by simp)
      · rw [if_neg hk] at h2
        rw [if_neg hk]
        exact ih h2

theorem foldl_recSet_fresh : ∀ (ps : List (String × JValue)) (acc : Record),
    keysUnique ps = true → (∀ p ∈ ps, recGet acc p.1 = none) →
    ps.foldl (fun acc p => recSet acc p.1 p.2) acc = acc ++ ps := by
  intro ps
  induction ps with
  | nil => intro acc _ _; simp
  | cons q qs ih =>
      obtain ⟨k, v⟩ := q
      intro acc hku hfresh
      have hku2 : (!(qs.any (fun p => p.1 == k)) && keysUnique qs) = true := hku
      rw [Bool.and_eq_true, Bool.not_eq_true'] at hku2
      have hacc : recGet acc k = none := hfresh (k, v) (List.mem_cons_self _ _)
      show qs.foldl (fun acc p => recSet acc p.1 p.2) (recSet acc k v) = acc ++ ((k, v) :: qs)
      rw [recSet_fresh acc k v hacc, ih (acc ++ [(k, v)]) hku2.2 ?fresh]
      · rw [List.append_assoc]
        rfl
      case fresh =>
        intro p hp
        have h3 := (List.any_eq_false.mp hku2.1) p hp
        have hne : k ≠ p.1 := by
          intro he
          exact h3 (by rw [he]; simp)
        rw [recGet_append_none acc [(k, v)] p.1 (hfresh p (List.mem_cons_of_mem _ hp))]
        show (if k = p.1 then some v else recGet [] p.1) = none
        rw [if_neg hne]
        rfl

theorem buildDict_eq_self (ps : List (String × JValue)) (h : keysUnique ps = true) :
    buildDict ps = ps := by
  unfold buildDict
  rw [foldl_recSet_fresh ps [] h (fun p _ => rfl)]
  rfl

theorem parseValue_succ_head (f : Nat) {c : Char} (hw : isWsChar c = false) (cs : List Char) :
    parseValue (f + 1) (c :: cs) =
      (if c = 'n' then (expectChars ['u', 'l', 'l'] cs).map (fun r => (JValue.null, r))
       else if c = 't' then (expectChars ['r', 'u', 'e'] cs).map (fun r => (JValue.bool true, r))
       else if c = 'f' then
         (expectChars ['a', 'l', 's', 'e'] cs).map (fun r => (JValue.bool false, r))
       else if c = '"' then
         (parseStringBody cs).map (fun p => (JValue.str (String.mk p.1), p.2))
       else if c = '[' then
         match skipWs cs with
         | [] => none
         | c0 :: r =>
             if c0 = ']' then some (JValue.arr [], r)
             else (parseItems f (c0 :: r)).map (fun p => (JValue.arr p.1, p.2))
       else if c = lbrace then
         match skipWs cs with
         | [] => none
         | c0 :: r =>
             if c0 = rbrace then some (JValue.obj [], r)
             else (parseMembers f (c0 :: r)).map (fun p => (JValue.obj (buildDict p.1), p.2))
       else parseNumber (c :: cs)) := by
  simp only [parseValue]
  rw [skipWs_not_ws hw]

theorem parse_dump_round : ∀ fuel : Nat,
    (∀ (ind level : Nat) (v : JValue) (rest : List Char), wfJ v = true → jsize v ≤ fuel →
      headNotDigit rest = true →
      parseValue fuel (dumpVal false ind level v ++ rest) = some (v, rest)) ∧
    (∀ (ind level : Nat) (x : JValue) (xs : List JValue) (cl : Nat) (rest : List Char),
      wfJList (x :: xs) = true → jsizeList (x :: xs) ≤ fuel →
      parseItems fuel (dumpVal false ind level x ++ (dumpItems false ind level xs ++
        ('\n' :: (indentChars cl ++ (']' :: rest))))) = some (x :: xs, rest)) ∧
    (∀ (ind level : Nat) (k : String) (v : JValue) (fs : List (String × JValue)) (cl : Nat)
      (rest : List Char), wfJFields ((k, v) :: fs) = true → jsizeFields ((k, v) :: fs) ≤ fuel →
      parseMembers fuel (dumpStrLit false k ++ (':' :: ' ' :: (dumpVal false ind level v ++
        (dumpMembers false ind level fs ++ ('\n' :: (indentChars cl ++ (rbrace :: rest))))))) =
        some ((k, v) :: fs, rest)) := by
  intro fuel
  induction fuel with
  | zero =>
      refine ⟨fun ind level v rest _ hsz _ => absurd hsz (by have := jsize_pos v; omega),
        fun ind level x xs cl rest _ hsz => absurd hsz (by simp only [jsizeList]; omega),
        fun ind level k v fs cl rest _ hsz => absurd hsz (by simp only [jsizeFields]; omega)⟩
  | succ f ih =>
      obtain ⟨ihV, ihI, ihM⟩ := ih
      refine ⟨?_, ?_, ?_⟩
      · intro ind level v rest hwf hsz hnd
        cases v with
        | null => rfl
        | bool b => cases b with | true => rfl | false => rfl
        | num n =>
            obtain ⟨c, cr, hic, hw, h1, h2, h3, h4, h5, h6, _⟩ := intChars_head n
            show parseValue (f + 1) (intChars n ++ rest) = some (.num n, rest)
            rw [hic, List.cons_append, parseValue_succ_head f hw, if_neg h1, if_neg h2,
              if_neg h3, if_neg h4, if_neg h5, if_neg h6, ← List.cons_append, ← hic]
            exact parseNumber_intChars n rest hnd
        | str s =>
            have u : parseValue (f + 1) (dumpVal false ind level (.str s) ++ rest) =
                (parseStringBody (escapeChars false s.data ++ ('"' :: rest))).map
                  (fun p => (JValue.str (String.mk p.1), p.2)) := by
              show parseValue (f + 1)
                  ('"' :: ((escapeChars false s.data ++ ['"']) ++ rest)) = _
              rw [List.append_assoc, List.singleton_append]
              rfl
            rw [u, parseStringBody_escape]
            rfl
        | arr xs =>
            cases xs with
            | nil => rfl
            | cons x xs =>
                simp only [dumpVal, List.cons_append, List.nil_append, List.append_assoc,
                  List.singleton_append]
                obtain ⟨c, cr, hch, hw, hne⟩ := dumpVal_head ind (level + 1) x
                rw [hch, List.cons_append,
                  parseValue_arr_cons f (ind * (level + 1)) _ hw hne,
                  ← List.cons_append, ← hch]
                rw [ihI ind (level + 1) x xs (ind * level) rest
                  (by simp only [wfJ] at hwf; exact hwf)
                  (by simp only [jsize] at hsz; omega)]
                rfl
        | obj fs =>
            cases fs with
            | nil => rfl
            | cons q fs =>
                obtain ⟨k, v⟩ := q
                simp only [dumpVal, List.cons_append, List.nil_append, List.append_assoc,
                  List.singleton_append]
                rw [parseValue_obj_cons f (ind * (level + 1)) k _]
                rw [ihM ind (level + 1) k v fs (ind * level) rest
                  (by simp only [wfJ, Bool.and_eq_true] at hwf; exact hwf.2)
                  (by simp only [jsize] at hsz; omega)]
                show some (JValue.obj (buildDict ((k, v) :: fs)), rest) =
                  some (JValue.obj ((k, v) :: fs), rest)
                rw [buildDict_eq_self ((k, v) :: fs)
                  (by simp only [wfJ, Bool.and_eq_true] at hwf; exact hwf.1)]
      · intro ind level x xs cl rest hwf hsz
        have hwx : wfJ x = true ∧ wfJList xs = true := by
          simp only [wfJList, Bool.and_eq_true] at hwf; exact hwf
        cases xs with
        | nil =>
            simp only [dumpItems, List.nil_append]
            exact parseItems_last f _ x cl rest
              (ihV ind level x _ hwx.1 (by simp only [jsizeList] at hsz; omega) rfl)
        | cons y ys =>
            simp only [dumpItems, List.cons_append, List.append_assoc]
            rw [parseItems_comma f _ x _
              (ihV ind level x _ hwx.1 (by simp only [jsizeList] at hsz; omega) rfl)]
            rw [parseItems_nl_indent f (ind * level) _]
            rw [ihI ind level y ys cl rest hwx.2
              (by simp only [jsizeList] at hsz ⊢; omega)]
            rfl
      · intro ind level k v fs cl rest hwf hsz
        have hw2 : wfJ v = true ∧ wfJFields fs = true := by
          simp only [wfJFields, Bool.and_eq_true] at hwf; exact hwf
        cases fs with
        | nil =>
            simp only [dumpMembers, List.nil_append]
            exact parseMembers_last f k v _ cl rest
              (ihV ind level v _ hw2.1 (by simp only [jsizeFields] at hsz; omega) rfl)
        | cons q fs2 =>
            obtain ⟨k2, v2⟩ := q
            simp only [dumpMembers, List.cons_append, List.append_assoc]
            rw [parseMembers_comma f k v _ _
              (ihV ind level v _ hw2.1 (by simp only [jsizeFields] at hsz; omega) rfl)]
            rw [parseMembers_nl_indent f (ind * level) _]
            rw [ihM ind level k2 v2 fs2 cl rest hw2.2
              (by simp only [jsizeFields] at hsz ⊢; omega)]
            rfl

/-- C8: for every JSON value built from strings, integers, booleans, null and
nested mappings/sequences — including non-ASCII text — with the unique-key
well-formedness that every value serialized from Python dicts has,
`DataProcessor.save_json` followed by `load_json` (json.dump with indent=2 and
ensure_ascii=False, then json.load) yields a value deep-equal to the
original: the round trip is lossless. -/
theorem c8_roundtrip (v : JValue) (h : wfJ v = true) :
    load_json (save_json v) = some v := by
  have hfuel : jsize v ≤ (dumpVal false 2 0 v).length + 1 := by
    have := jsize_le_dump false 2 0 v
    omega
  have hp := (parse_dump_round ((dumpVal false 2 0 v).length + 1)).1 2 0 v [] h hfuel rfl
  rw [List.append_nil] at hp
  show (match parseValue ((dumpVal false 2 0 v).length + 1) (dumpVal false 2 0 v) with
        | some (w, r) => if (skipWs r).isEmpty then some w else none
        | none => none) = some v
  rw [hp]
  rfl

/-- Witness for C8: a nested record with non-ASCII text, a negative number,
booleans and null survives the save/load round trip unchanged. -/
theorem c8_roundtrip_witness :
    wfJ (JValue.obj [("Id", JValue.num 42), ("Name", JValue.str "Zoë β"),
      ("Works", JValue.arr [JValue.obj [("Title", JValue.str "π day")], JValue.bool true,
        JValue.num (-17), JValue.null])]) = true ∧
    load_json (save_json (JValue.obj [("Id", JValue.num 42), ("Name", JValue.str "Zoë β"),
      ("Works", JValue.arr [JValue.obj [("Title", JValue.str "π day")], JValue.bool true,
        JValue.num (-17), JValue.null])])) =
      some (JValue.obj [("Id", JValue.num 42), ("Name", JValue.str "Zoë β"),
        ("Works", JValue.arr [JValue.obj [("Title", JValue.str "π day")], JValue.bool true,
          JValue.num (-17), JValue.null])]) :=
  ⟨rfl, c8_roundtrip _ rfl⟩
